import Mathlib

/-!
Verification of the Unity text-asset deserializer (src/serde/deserializer.rs,
src/serde/mod.rs) against its natural-language specification.

The Rust code is shallowly embedded: the deserializer's mutable state becomes
the explicit record `DeState`, fallible operations return a `DeStep` outcome
(`ok`/`err` carry the state at the point of return, mirroring `&mut self`;
`panic` models a Rust process abort such as `unreachable!` or an out-of-bounds
slice).  The input buffer is a `List Char` with a forward offset, matching the
`&str` plus byte-offset cursor of the source (the format is ASCII, so char
positions and byte positions coincide).

Three `ghost*` counters in `DeState` are ghost instrumentation, not source
state: they count how many times `skip_array_header`, `skip_space` and
`is_seq_multi` execute, so that theorems can observe which primitives a
decode path actually runs.  No control flow depends on them.
-/

/-- The decode-context tags, from `enum DeStatus` in deserializer.rs. -/
inductive DeStatus where
  | MultipleElement
  | SingleElement
  | StructKey
  | StructValue
  | Invalid
deriving DecidableEq

/-- The error type, from `enum UnityDeError` in serde/mod.rs:
`Other(String)` for `UnityDeError::custom` messages and `Eof`. -/
inductive DeError where
  | Other (msg : String)
  | Eof
deriving DecidableEq

/-- The deserializer state, from `struct UnityDeserializer`:
current indent `tab`, input buffer `data`, read `offset`, the context
(status) stack (head of the list is the top, i.e. `Vec::last`), the
one-shot `root` flag and the cached `type_name`.  The `regex` field of the
source is the fixed pattern embedded below as `regexMatch`.  The `ghost*`
fields are ghost instrumentation only (see module comment). -/
structure DeState where
  tab : Nat
  data : List Char
  offset : Nat
  status : List DeStatus
  root : Bool
  type_name : List Char
  ghostHeaders : Nat
  ghostSpaces : Nat
  ghostDiscrim : Nat
deriving DecidableEq

/-- Outcome of one embedded operation: `ok`/`err` carry the state at the
point of return (the source mutates through `&mut self`); `panic` models a
process abort. -/
inductive DeStep (α : Type) where
  | ok (a : α) (s : DeState)
  | err (e : DeError) (s : DeState)
  | panic
deriving DecidableEq

/-- `self.status.push(st)` (head of the list is the top of the stack). -/
def push_status (st : DeStatus) (s : DeState) : DeState :=
  { s with status := st :: s.status }

/-- `self.status.pop()` (the popped value is discarded by every caller). -/
def pop_status (s : DeState) : DeState :=
  { s with status := s.status.tail }

/-- `self.chars()`: the characters from the read offset on. -/
def chars (s : DeState) : List Char :=
  s.data.drop s.offset

/-- `self.remaining()`. -/
def remaining (s : DeState) : Nat :=
  s.data.length - s.offset

/-- `self.current_status()`: `self.status.last()`; the source `unwrap`s, so
callers turn `none` into a panic. -/
def current_status (s : DeState) : Option DeStatus :=
  s.status.head?

/-- `tab_count`: the position of the first non-tab character, or the
remaining length if every remaining character is a tab. -/
def tab_count (s : DeState) : Nat :=
  match (chars s).findIdx? (fun c => c != '\t') with
  | some count => count
  | none => s.data.length - s.offset

/-- `self.skip(count)`: advance the offset, `Eof` past the end. -/
def skip (count : Nat) (s : DeState) : DeStep Unit :=
  if s.offset + count ≤ s.data.length then
    .ok () { s with offset := s.offset + count }
  else
    .err .Eof s

/-- `count_until`: distance to the next occurrence of `d`, or the remaining
length if absent. -/
def count_until (d : Char) (s : DeState) : Nat :=
  match (chars s).findIdx? (fun c => c == d) with
  | some p => p
  | none => remaining s

/-- `skip_until`: consume through the next occurrence of `d`. -/
def skip_until (d : Char) (s : DeState) : DeStep Unit :=
  skip (count_until d s + 1) s

/-- `skip_line`: a no-op inside `MultipleElement` context, otherwise consume
through the next newline.  The source `unwrap`s the status stack, hence
`panic` on an empty stack. -/
def skip_line (s : DeState) : DeStep Unit :=
  match current_status s with
  | none => .panic
  | some .MultipleElement => .ok () s
  | some _ => skip_until '\n' s

/-- Helper for `skip_header`: the source scans `chars()` counting consecutive
`'\n'` (a `'\r'` leaves the count unchanged, anything else resets it) and
takes the position where the count reaches 3. -/
def header_pos : List Char → Nat → Nat → Option Nat
  | [], _, _ => none
  | c :: rest, current_eol, idx =>
    let n := if c == '\n' then current_eol + 1 else if c == '\r' then current_eol else 0
    if n == 3 then some idx else header_pos rest n (idx + 1)

/-- `skip_header`: consume the fixed banner through the third consecutive
line terminator. -/
def skip_header (s : DeState) : DeStep Unit :=
  match header_pos (chars s) 0 0 with
  | none => .err (.Other ("skip file header failed")) s
  | some pos => skip (pos + 1) s

/-- `get_str(len)`: return the next `len` characters and consume them. -/
def get_str (len : Nat) (s : DeState) : DeStep (List Char) :=
  if s.offset + len > s.data.length then .err .Eof s
  else
    let ret := (s.data.drop s.offset).take len
    match skip len s with
    | .ok _ s1 => .ok ret s1
    | .err e s1 => .err e s1
    | .panic => .panic

/-- `peek_str(len)`: the next `len` characters without consuming. -/
def peek_str (len : Nat) (s : DeState) : DeStep (List Char) :=
  if s.offset + len ≤ s.data.length then
    .ok ((s.data.drop s.offset).take len) s
  else .err .Eof s

/-- `peek_line`: the text up to the next line terminator, non-consuming
(`unwrap_or("")` on the peek). -/
def peek_line (s : DeState) : List Char :=
  let pos :=
    match (chars s).findIdx? (fun c => c == '\r' || c == '\n') with
    | some p => p
    | none => s.data.length - s.offset
  match peek_str pos s with
  | .ok l _ => l
  | .err _ _ => []
  | .panic => []

/-- Index of the last `'('` in a line (`char_indices().rfind`). -/
def rfind_lparen (l : List Char) : Option Nat :=
  (l.reverse.findIdx? (fun c => c == '(')).map (fun i => l.length - 1 - i)

/-- `peek_type`: the text inside the last parenthesized group on the current
line; fails with a "type not found" message when the parentheses are
absent. -/
def peek_type (s : DeState) : DeStep (List Char) :=
  let line := peek_line s
  match rfind_lparen line with
  | none => .err (.Other ("type not found:" ++ String.mk line)) s
  | some bgn =>
    match (line.drop (bgn + 1)).findIdx? (fun c => c == ')') with
    | none => .err (.Other ("type not found:" ++ String.mk line)) s
    | some e => .ok ((line.drop (bgn + 1)).take e) s

/-- The identifier character class of `get_identifier`:
ASCII alphanumeric, `'_'`, `'['`, `']'`. -/
def is_ident_char (c : Char) : Bool :=
  c.isAlphanum || c == '_' || c == '[' || c == ']'

/-- `get_identifier`: the maximal run of identifier characters; fails only
when every remaining character is an identifier character. -/
def get_identifier (s : DeState) : DeStep (List Char) :=
  match (chars s).findIdx? (fun c => !(is_ident_char c)) with
  | none => .err (.Other ("identifier not found")) s
  | some pos => get_str pos s

/-- `next_char`: consume and return one character. -/
def next_char (s : DeState) : DeStep Char :=
  match (chars s).head? with
  | none => .err .Eof s
  | some c =>
    match skip 1 s with
    | .ok _ s1 => .ok c s1
    | .err e s1 => .err e s1
    | .panic => .panic

/-- `char::is_ascii_whitespace`. -/
def is_ascii_whitespace (c : Char) : Bool :=
  c == ' ' || c == '\t' || c == '\n' || c == '\r' || c == '\x0c'

/-- `skip_space`: consume one character, failing if it is not ASCII
whitespace.  Ghost: bumps `ghostSpaces` on success. -/
def skip_space (s : DeState) : DeStep Unit :=
  match next_char s with
  | .err e s1 => .err e s1
  | .panic => .panic
  | .ok c s1 =>
    if !(is_ascii_whitespace c) then
      .err (.Other ("space expected at:" ++ String.mk (peek_line s1))) s1
    else
      .ok () { s1 with ghostSpaces := s1.ghostSpaces + 1 }

/-- The result of checking the next `count` characters for tabs, mirroring
the iterator loop of `skip_tab`: running out of characters is `Eof` first,
a non-tab character is the mismatch error. -/
inductive TabCheck where
  | ok
  | eof
  | mismatch
deriving DecidableEq

/-- The checking loop of `skip_tab`. -/
def tab_check : Nat → List Char → TabCheck
  | 0, _ => .ok
  | _ + 1, [] => .eof
  | n + 1, c :: rest => if c != '\t' then .mismatch else tab_check n rest

/-- `skip_tab(count)`: verify the next `count` characters are tabs, then
consume them. -/
def skip_tab (count : Nat) (s : DeState) : DeStep Unit :=
  match tab_check count (chars s) with
  | .eof => .err .Eof s
  | .mismatch => .err (.Other ("tab not match:" ++ String.mk (peek_line s))) s
  | .ok => skip count s

/-- `get_content`: the run up to the next space or line terminator
(`Eof` when no such terminator remains). -/
def get_content (s : DeState) : DeStep (List Char) :=
  match (chars s).findIdx? (fun c => c == ' ' || c == '\r' || c == '\n') with
  | none => .err .Eof s
  | some pos => get_str pos s

/-- `get_content_by::<T>`: read a content token, parse it with the target
type's `FromStr` (the `parse` parameter here), and on success consume the
rest of the line. -/
def get_content_by {α : Type} (parse : List Char → Option α) (s : DeState) : DeStep α :=
  match get_content s with
  | .err e s1 => .err e s1
  | .panic => .panic
  | .ok content s1 =>
    match parse content with
    | some t =>
      match skip_line s1 with
      | .ok _ s2 => .ok t s2
      | .err e s2 => .err e s2
      | .panic => .panic
    | none => .err (.Other ("parse '" ++ String.mk content ++ "' failed")) s1

/-- `skip_array_header`: consume through the next `':'`.
Ghost: bumps `ghostHeaders` on success. -/
def skip_array_header (s : DeState) : DeStep Unit :=
  match skip (count_until ':' s + 1) s with
  | .ok _ s1 => .ok () { s1 with ghostHeaders := s1.ghostHeaders + 1 }
  | .err e s1 => .err e s1
  | .panic => .panic

/-- Character class `[0-9a-zA-Z ]` of the tabular-row regex. -/
def is_word_space (c : Char) : Bool :=
  c.isAlphanum || c == ' '

/-- Strip an expected literal from the front of a list of characters. -/
def dropPre : List Char → List Char → Option (List Char)
  | [], l => some l
  | _ :: _, [] => none
  | p :: ps, c :: cs => if p == c then dropPre ps cs else none

/-- Match the regex `data \([0-9a-zA-Z ]+\) #[0-9]+:` at the head of `l`.
Because `')'` is not in the bracketed class and `':'` is not a digit, the
greedy maximal runs taken here are the only possible matches. -/
def match_here (l : List Char) : Bool :=
  match dropPre ("data (").data l with
  | none => false
  | some r1 =>
    let w := r1.takeWhile is_word_space
    let r2 := r1.dropWhile is_word_space
    if w.isEmpty then false
    else
      match dropPre (") #").data r2 with
      | none => false
      | some r3 =>
        let d := r3.takeWhile Char.isDigit
        let r4 := r3.dropWhile Char.isDigit
        if d.isEmpty then false
        else
          match r4 with
          | c :: _ => c == ':'
          | [] => false

/-- `Regex::is_match` for the fixed pattern: an unanchored search, i.e. a
match may start at any position of the line. -/
def regexMatch : List Char → Bool
  | [] => match_here []
  | c :: t => match_here (c :: t) || regexMatch t

/-- `is_seq_multi`: does the upcoming line match the tabular-row pattern?
(The source wraps the answer in `Ok`.)  Ghost: bumps `ghostDiscrim`, making
"the discriminator was consulted" observable. -/
def is_seq_multi (s : DeState) : DeStep Bool :=
  .ok (regexMatch (peek_line s)) { s with ghostDiscrim := s.ghostDiscrim + 1 }

/-- `is_empty`: the buffer is fully consumed. -/
def is_empty (s : DeState) : Bool :=
  s.offset == s.data.length

/-- The handler selected by `deserialize_any`'s dispatch.  The handlers
themselves are embedded as separate functions; this type records which
match arm of lines 242-275 of deserializer.rs fires. -/
inductive AnyBranch where
  | identifier
  | seq
  | i64
  | u32
  | i32
  | string
  | u8
  | f32
  | str
  | u16
  | struct_
deriving DecidableEq

/-- The tag-to-handler table of `deserialize_any` (the `match` on
`self.type_name.as_str()`).  Note the source's ninth arm is the single
literal `"unsigned short|UInt16"` — a string containing `'|'` — not the
or-pattern used for `"UInt8" | "unsigned char"`. -/
def any_branch_of (tn : List Char) : AnyBranch :=
  if tn = ("vector").data then .seq
  else if tn = ("SInt64").data then .i64
  else if tn = ("unsigned int").data then .u32
  else if tn = ("int").data then .i32
  else if tn = ("string").data then .string
  else if tn = ("UInt8").data ∨ tn = ("unsigned char").data then .u8
  else if tn = ("float").data then .f32
  else if tn = ("Vector3f").data then .str
  else if tn = ("unsigned short|UInt16").data then .u16
  else .struct_

/-- `deserialize_any`, embedded up to the selection of the handler:
`StructKey` context extracts an identifier; `Invalid` context hits
`unreachable!("invalid status")`, i.e. a process abort; otherwise the
effective type tag is the cached `type_name` in `MultipleElement` context
and a fresh `peek_type` elsewhere, and the tag is dispatched through
`any_branch_of`. -/
def deserialize_any_branch (s : DeState) : DeStep AnyBranch :=
  match current_status s with
  | none => .panic
  | some .StructKey => .ok .identifier s
  | some .Invalid => .panic
  | some st =>
    let tnStep : DeStep (List Char) :=
      match st with
      | .MultipleElement => .ok s.type_name s
      | _ => peek_type s
    match tnStep with
    | .err e s1 => .err e s1
    | .panic => .panic
    | .ok tn s1 => .ok (any_branch_of tn) { s1 with type_name := tn }

/-- `deserialize_string`: read a content token, strip its first and last
characters (`content[1..len-1]` — an unchecked slice that panics when the
token is shorter than two characters), then consume the rest of the line.
The `String` target's visitor returns the string unchanged. -/
def deserialize_string_de (s : DeState) : DeStep String :=
  match get_content s with
  | .err e s1 => .err e s1
  | .panic => .panic
  | .ok content s1 =>
    let len := content.length
    if len < 2 then .panic
    else
      let stripped := (content.drop 1).take (len - 2)
      match skip_line s1 with
      | .ok _ s2 => .ok (String.mk stripped) s2
      | .err e s2 => .err e s2
      | .panic => .panic

/-- Digit run to a number, for the unsigned `FromStr` grammars. -/
def digits_val : List Char → Nat → Option Nat
  | [], acc => some acc
  | c :: rest, acc =>
    if c.isDigit then digits_val rest (acc * 10 + (c.toNat - '0'.toNat))
    else none

/-- Rust `u64/usize::from_str`-style grammar: optional leading `'+'`, then
one or more digits. -/
def parse_unsigned (l : List Char) : Option Nat :=
  match l with
  | [] => none
  | '+' :: rest => if rest.isEmpty then none else digits_val rest 0
  | _ => digits_val l 0

/-- `u8::from_str`: the unsigned grammar with overflow above 255 rejected. -/
def parse_u8 (l : List Char) : Option Nat :=
  match parse_unsigned l with
  | some n => if n < 256 then some n else none
  | none => none

/-- `deserialize_u8` for a `u8` target: `visitor.visit_u8(self.get_content_by()?)`. -/
def deserialize_u8_de (s : DeState) : DeStep Nat :=
  get_content_by parse_u8 s

/-- The element-iteration state, from `struct UnitySeqAccess` (minus the
borrowed deserializer, which is threaded separately). -/
structure SeqSt where
  tab : Nat
  current : Nat
  count : Nat
  multiple : Bool
  faked : Bool
deriving DecidableEq

/-- `const ArrayMemberColumns: usize = 25`. -/
def ArrayMemberColumns : Nat := 25

/-- The `(count, faked)` computation of `deserialize_seq`: a `"Hash128"`
visitor gets the hardcoded pair `(16, true)` with no input consumed;
anything else reads the `size <N> (int)` line (tabs, the `size` keyword,
a space, then the count). -/
def countFaked (typ : String) (s1 : DeState) : DeStep (Nat × Bool) :=
  if typ == "Hash128" then .ok (16, true) s1
  else
    match skip_tab (tab_count s1) s1 with
    | .err e s2 => .err e s2
    | .panic => .panic
    | .ok _ s2 =>
      match get_identifier s2 with
      | .err e s3 => .err e s3
      | .panic => .panic
      | .ok id s3 =>
        if id ≠ ("size").data then .err (.Other ("no size found")) s3
        else
          match skip_space s3 with
          | .err e s4 => .err e s4
          | .panic => .panic
          | .ok _ s4 =>
            match get_content_by parse_unsigned s4 with
            | .ok count s5 => .ok (count, false) s5
            | .err e s5 => .err e s5
            | .panic => .panic

/-- `deserialize_seq`: skip the current line, compute `(count, faked)`,
bump the indent, run the visitor's `visit_seq` over a fresh access state,
then restore the indent.  `typ` is the visitor's `Expected` rendering;
`visitSeq` is the visitor's `visit_seq`. -/
def deserialize_seq {β : Type} (typ : String)
    (visitSeq : SeqSt → DeState → DeStep β) (s : DeState) : DeStep β :=
  match skip_line s with
  | .err e s1 => .err e s1
  | .panic => .panic
  | .ok _ s1 =>
    match countFaked typ s1 with
    | .err e s2 => .err e s2
    | .panic => .panic
    | .ok (count, faked) s2 =>
      let s3 := { s2 with tab := s2.tab + 1 }
      match visitSeq { tab := s3.tab, current := 0, count := count,
                       multiple := false, faked := faked } s3 with
      | .ok v s4 => .ok v { s4 with tab := s4.tab - 1 }
      | .err e s4 => .err e { s4 with tab := s4.tab - 1 }
      | .panic => .panic

/-- `next_key_seed` of `UnityMapAccess`: if the upcoming line's leading-tab
count is below the access's depth, report no more fields without consuming;
otherwise consume the tabs, push `StructKey`, run the seed, pop (on success
and on failure alike). -/
def next_key_seed {α : Type} (seedDe : DeState → DeStep α) (selfTab : Nat)
    (s : DeState) : DeStep (Option α) :=
  let tab := tab_count s
  if tab < selfTab then .ok none s
  else
    match skip_tab tab s with
    | .err e s1 => .err e s1
    | .panic => .panic
    | .ok _ s1 =>
      match seedDe (push_status .StructKey s1) with
      | .ok v s2 => .ok (some v) (pop_status s2)
      | .err e s2 => .err e (pop_status s2)
      | .panic => .panic

/-- `next_value_seed` of `UnityMapAccess`: consume one character, failing
unless it is the separating space; push `StructValue`, run the seed, pop
(on success and on failure alike). -/
def next_value_seed {α : Type} (seedDe : DeState → DeStep α)
    (s : DeState) : DeStep α :=
  match next_char s with
  | .err e s1 => .err e s1
  | .panic => .panic
  | .ok c s1 =>
    if c != ' ' then .err (.Other ("invalid line:" ++ String.mk (peek_line s1))) s1
    else
      match seedDe (push_status .StructValue s1) with
      | .ok v s2 => .ok v (pop_status s2)
      | .err e s2 => .err e (pop_status s2)
      | .panic => .panic

/-- `next_element_seed` of `UnitySeqAccess`.  At the first element of a
nonzero-count sequence the shape is discriminated: a tabular-row match
caches the row's type tag and pushes `MultipleElement`, otherwise
`SingleElement` is pushed.  When the running index reaches the count the
pushed context (if any) is popped, a line is skipped, and end-of-sequence
is reported.  Otherwise the tabular branch re-consumes a row header every
`ArrayMemberColumns` elements and skips one space, while the per-element
branch consumes the tabs, the `data` keyword (not enforced when `faked`)
and one space; then the seed decodes the element. -/
def next_element_seed {α : Type} (seedDe : DeState → DeStep α) (a0 : SeqSt)
    (s0 : DeState) : DeStep (Option α) × SeqSt :=
  let disc : DeStep Unit × SeqSt :=
    if a0.current == 0 && a0.count != 0 then
      match is_seq_multi s0 with
      | .ok multi s1 =>
        if multi then
          match peek_type s1 with
          | .ok tn s2 =>
            (.ok () (push_status .MultipleElement { s2 with type_name := tn }),
             { a0 with multiple := true })
          | .err e s2 => (.err e s2, a0)
          | .panic => (.panic, a0)
        else (.ok () (push_status .SingleElement s1), { a0 with multiple := false })
      | .err e s1 => (.err e s1, a0)
      | .panic => (.panic, a0)
    else (.ok () s0, a0)
  match disc with
  | (.err e s, a) => (.err e s, a)
  | (.panic, a) => (.panic, a)
  | (.ok _ s, a) =>
    if a.current == a.count then
      let s' := if a.count != 0 then pop_status s else s
      match skip_line s' with
      | .ok _ s'' => (.ok none s'', a)
      | .err e s'' => (.err e s'', a)
      | .panic => (.panic, a)
    else
      let pre : DeStep Unit :=
        if a.multiple then
          if a.current % ArrayMemberColumns == 0 then
            match skip_array_header s with
            | .ok _ sA => skip_space sA
            | .err e sA => .err e sA
            | .panic => .panic
          else skip_space s
        else
          match skip_tab a.tab s with
          | .err e sA => .err e sA
          | .panic => .panic
          | .ok _ sA =>
            match get_identifier sA with
            | .err e sB => .err e sB
            | .panic => .panic
            | .ok id sB =>
              if id ≠ ("data").data ∧ !a.faked then
                .err (.Other ("no data keyword found in seq:" ++ String.mk (peek_line sB))) sB
              else skip_space sB
      match pre with
      | .err e sZ => (.err e sZ, a)
      | .panic => (.panic, a)
      | .ok _ sZ =>
        let a' := { a with current := a.current + 1 }
        match seedDe sZ with
        | .ok v sW => (.ok (some v) sW, a')
        | .err e sW => (.err e sW, a')
        | .panic => (.panic, a')

/-- The fresh deserializer of `UnityDeserializer::from_str`: offset 0,
depth 0, status stack holding `Invalid`, `root` set.  The ghost counters
begin at 0. -/
def init_state (data : List Char) : DeState :=
  { tab := 0, data := data, offset := 0, status := [.Invalid], root := true,
    type_name := [], ghostHeaders := 0, ghostSpaces := 0, ghostDiscrim := 0 }

/-- The top-level `from_str`: skip the banner, consume through the `')'` of
the root line, run the root `Deserialize` (the `rootDe` parameter), skip two
further lines, and succeed only on a fully exhausted buffer, otherwise fail
with the trailing-data error. -/
def from_str {α : Type} (rootDe : DeState → DeStep α) (data : List Char) :
    DeStep α :=
  let s0 := init_state data
  match skip_header s0 with
  | .err e s => .err e s
  | .panic => .panic
  | .ok _ s1 =>
    match skip_until ')' s1 with
    | .err e s => .err e s
    | .panic => .panic
    | .ok _ s2 =>
      match rootDe s2 with
      | .err e s => .err e s
      | .panic => .panic
      | .ok t s3 =>
        match skip_line s3 with
        | .err e s => .err e s
        | .panic => .panic
        | .ok _ s4 =>
          match skip_line s4 with
          | .err e s => .err e s
          | .panic => .panic
          | .ok _ s5 =>
            if is_empty s5 then .ok t s5
            else .err (.Other ("tailing data:'" ++ String.mk (peek_line s5) ++ "'")) s5

/-- The driving loop a `Vec` visitor runs over a `SeqAccess`: call
`next_element_seed` until it reports `none` (success, elements in order) or
fails.  `fuel` bounds the recursion; every caller passes enough. -/
def seq_drive {α : Type} (seedDe : DeState → DeStep α) :
    Nat → SeqSt → DeState → List α → DeStep (List α) × SeqSt
  | 0, a, s, _ => (.err (.Other ("fuel exhausted")) s, a)
  | fuel + 1, a, s, acc =>
    match next_element_seed seedDe a s with
    | (.ok none s', a') => (.ok acc.reverse s', a')
    | (.ok (some v) s', a') => seq_drive seedDe fuel a' s' (v :: acc)
    | (.err e s', a') => (.err e s', a')
    | (.panic, a') => (.panic, a')

/-- The loop body of `Hash128Visitor::visit_seq`: sixteen `next_element`
calls for `u8` elements, failing if any reports end-of-sequence early. -/
def hash_loop : Nat → List Nat → SeqSt → DeState → DeStep (List Nat)
  | 0, acc, _, s => .ok acc s
  | n + 1, acc, a, s =>
    match next_element_seed deserialize_u8_de a s with
    | (.ok (some b) s', a') => hash_loop n (acc ++ [b]) a' s'
    | (.ok none s', _) => .err (.Other ("Hash128 missing byte")) s'
    | (.err e s', _) => .err e s'
    | (.panic, _) => .panic

/-- `Hash128::deserialize`: `deserializer.deserialize_seq(Hash128Visitor)`,
whose `Expected` rendering is exactly `"Hash128"`. -/
def hash128_de (s : DeState) : DeStep (List Nat) :=
  deserialize_seq "Hash128" (fun a s' => hash_loop 16 [] a s') s


/-- Spec-side (C10 wording): the line contains anywhere a substring of the
shape `data (` + one-or-more alphanumeric-or-space characters + `) #` +
one-or-more digits + `:`. -/
def SpecSeqMultiLine (l : List Char) : Prop :=
  ∃ p w d suf,
    l = p ++ ("data (").data ++ w ++ (") #").data ++ d ++ ':' :: suf ∧
    w ≠ [] ∧ (∀ c ∈ w, is_word_space c = true) ∧
    d ≠ [] ∧ (∀ c ∈ d, c.isDigit = true)

/-- A line on which `peek_type` succeeds: it has a `'('`, with a `')'`
somewhere after the last `'('`. -/
def has_type_tag (line : List Char) : Bool :=
  match rfind_lparen line with
  | none => false
  | some bgn => ((line.drop (bgn + 1)).findIdx? (fun c => c == ')')).isSome

/-- A seed decoder that leaves the status stack as it found it, whether it
succeeds or fails (the inductive invariant the recursive decoders satisfy). -/
def stack_pres {α : Type} (seedDe : DeState → DeStep α) : Prop :=
  ∀ s, match seedDe s with
    | .ok _ s' => s'.status = s.status
    | .err _ s' => s'.status = s.status
    | .panic => True

/-- A seed decoder that, when it succeeds, preserves the ghost counters and
the status stack (true of every scalar decode, which runs neither
`skip_array_header` nor `skip_space` and balances its pushes). -/
def preserves_obs {α : Type} (seedDe : DeState → DeStep α) : Prop :=
  ∀ s, match seedDe s with
    | .ok _ s' => s'.ghostHeaders = s.ghostHeaders ∧
        s'.ghostSpaces = s.ghostSpaces ∧ s'.status = s.status
    | .err _ _ => True
    | .panic => True

/-- The number of indices `i` with `cur ≤ i < cnt` and `i % 25 = 0` — the
row headers a tabular decode re-consumes between running index `cur` and the
count `cnt`. -/
def headers_between (cur cnt : Nat) : Nat :=
  if cur < cnt then
    (if cur % ArrayMemberColumns == 0 then 1 else 0) + headers_between (cur + 1) cnt
  else 0
termination_by cnt - cur

/-- Spec-side (C6 wording): the per-element step of a faked fixed-length
sequence — tabs, an identifier, one space, then the element — with no
requirement that the identifier be the `data` keyword. -/
def faked_step_model {α : Type} (seedDe : DeState → DeStep α) (a : SeqSt)
    (s : DeState) : DeStep (Option α) × SeqSt :=
  let pre : DeStep Unit :=
    match skip_tab a.tab s with
    | .err e sA => .err e sA
    | .panic => .panic
    | .ok _ sA =>
      match get_identifier sA with
      | .err e sB => .err e sB
      | .panic => .panic
      | .ok _ sB => skip_space sB
  match pre with
  | .err e sZ => (.err e sZ, a)
  | .panic => (.panic, a)
  | .ok _ sZ =>
    let a' := { a with current := a.current + 1 }
    match seedDe sZ with
    | .ok v sW => (.ok (some v) sW, a')
    | .err e sW => (.err e sW, a')
    | .panic => (.panic, a')

/-- Recognizes the trailing-data failure of `from_str` (its message starts
with the fixed text `tailing data`). -/
def is_trailing {α : Type} : DeStep α → Bool
  | .err (.Other m) _ => m.data.take 12 == ("tailing data").data
  | _ => false

/-- Append one extra character to the buffer of a state (the "inject an
extra trailing byte" experiment of the spec). -/
def extendBuf (b : Char) (s : DeState) : DeState :=
  { s with data := s.data ++ [b] }

/-- A state for tests and witnesses: fresh cursor over `d` with status
stack `st`. -/
def mk_state (d : String) (st : List DeStatus) : DeState :=
  { tab := 0, data := d.data, offset := 0, status := st, root := true,
    type_name := [], ghostHeaders := 0, ghostSpaces := 0, ghostDiscrim := 0 }

/-- An operation that leaves the status stack unchanged on success and on
failure. -/
def keeps_status {α : Type} (f : DeState → DeStep α) : Prop :=
  ∀ s, match f s with
    | .ok _ s' => s'.status = s.status
    | .err _ s' => s'.status = s.status
    | .panic => True

lemma keeps_status_skip (c : Nat) : keeps_status (skip c) := by
  unfold keeps_status skip
  intro s
  by_cases h : s.offset + c ≤ s.data.length <;> simp [h]

lemma keeps_status_skip_until (d : Char) : keeps_status (skip_until d) := by
  unfold keeps_status skip_until
  intro s
  have := keeps_status_skip (count_until d s + 1) s
  exact this

lemma keeps_status_skip_tab (c : Nat) : keeps_status (skip_tab c) := by
  unfold keeps_status skip_tab
  intro s
  cases tab_check c (chars s) with
  | ok => exact keeps_status_skip c s
  | eof => simp
  | mismatch => simp

lemma keeps_status_get_str (c : Nat) : keeps_status (get_str c) := by
  unfold keeps_status get_str
  intro s
  by_cases h : s.offset + c > s.data.length
  · simp [h]
  · simp only [h, if_false]
    have hs := keeps_status_skip c s
    unfold keeps_status at hs
    cases hv : skip c s with
    | ok a s1 => rw [hv] at hs; simpa using hs
    | err e s1 => rw [hv] at hs; simpa using hs
    | panic => simp

lemma keeps_status_get_identifier : keeps_status get_identifier := by
  unfold keeps_status get_identifier
  intro s
  cases h : (chars s).findIdx? (fun c => !(is_ident_char c)) with
  | none => simp
  | some pos => exact keeps_status_get_str pos s

lemma keeps_status_next_char : keeps_status next_char := by
  unfold keeps_status next_char
  intro s
  cases h : (chars s).head? with
  | none => simp
  | some c =>
    have hs := keeps_status_skip 1 s
    unfold keeps_status at hs
    cases hv : skip 1 s with
    | ok a s1 => rw [hv] at hs; simpa using hs
    | err e s1 => rw [hv] at hs; simpa using hs
    | panic => simp

lemma keeps_status_skip_space : keeps_status skip_space := by
  unfold keeps_status skip_space
  intro s
  have hs := keeps_status_next_char s
  unfold keeps_status at hs
  cases hv : next_char s with
  | ok c s1 =>
    rw [hv] at hs
    by_cases hw : is_ascii_whitespace c <;> simp [hw] <;> simpa using hs
  | err e s1 => rw [hv] at hs; simpa using hs
  | panic => simp

lemma keeps_status_skip_line : keeps_status skip_line := by
  unfold keeps_status skip_line
  intro s
  cases h : current_status s with
  | none => simp
  | some st =>
    cases st <;> simp <;> exact keeps_status_skip_until '\n' s

lemma keeps_status_skip_array_header : keeps_status skip_array_header := by
  unfold keeps_status skip_array_header
  intro s
  have hs := keeps_status_skip (count_until ':' s + 1) s
  unfold keeps_status at hs
  cases hv : skip (count_until ':' s + 1) s with
  | ok a s1 => rw [hv] at hs; simpa using hs
  | err e s1 => rw [hv] at hs; simpa using hs
  | panic => simp

lemma keeps_status_get_content : keeps_status get_content := by
  unfold keeps_status get_content
  intro s
  cases h : (chars s).findIdx? (fun c => c == ' ' || c == '\r' || c == '\n') with
  | none => simp
  | some pos => exact keeps_status_get_str pos s

lemma skip_ok_eq (c : Nat) (s : DeState) (u : Unit) (s' : DeState)
    (h : skip c s = .ok u s') :
    s' = { s with offset := s.offset + c } ∧ s.offset + c ≤ s.data.length := by
  unfold skip at h
  by_cases hle : s.offset + c ≤ s.data.length
  · simp only [hle, if_true] at h
    refine ⟨?_, hle⟩
    injection h with _ h2
    exact h2.symm
  · simp [hle] at h

lemma next_char_ok_eq (s : DeState) (c : Char) (s' : DeState)
    (h : next_char s = .ok c s') :
    s' = { s with offset := s.offset + 1 } ∧ (chars s).head? = some c := by
  unfold next_char at h
  cases hh : (chars s).head? with
  | none => rw [hh] at h; simp at h
  | some c0 =>
    rw [hh] at h
    cases hv : skip 1 s with
    | ok u s1 =>
      rw [hv] at h
      obtain ⟨h1, _⟩ := skip_ok_eq 1 s u s1 hv
      injection h with h2 h3
      subst h2 h3
      exact ⟨h1, rfl⟩
    | err e s1 => rw [hv] at h; simp at h
    | panic => rw [hv] at h; simp at h

lemma skip_until_ok_advances (d : Char) (s : DeState) (u : Unit) (s' : DeState)
    (h : skip_until d s = .ok u s') : s.offset < s'.offset := by
  unfold skip_until at h
  obtain ⟨h1, _⟩ := skip_ok_eq _ s u s' h
  subst h1
  simp

lemma skip_space_ok_advances (s : DeState) (u : Unit) (s' : DeState)
    (h : skip_space s = .ok u s') : s.offset < s'.offset := by
  unfold skip_space at h
  cases hv : next_char s with
  | ok c s1 =>
    rw [hv] at h
    obtain ⟨h1, _⟩ := next_char_ok_eq s c s1 hv
    by_cases hw : is_ascii_whitespace c
    · simp only [hw, Bool.not_true, Bool.false_eq_true, if_false] at h
      injection h with _ h2
      subst h2
      subst h1
      simp
    · simp [hw] at h
  | err e s1 => rw [hv] at h; simp at h
  | panic => rw [hv] at h; simp at h

def c1_state_ushort : DeState :=
  mk_state ("0 (unsigned short)") [.StructValue, .Invalid]

def c1_state_u16tag : DeState :=
  mk_state ("0 (UInt16)") [.StructValue, .Invalid]

/-- C1: the claim says a value whose type tag is exactly `unsigned short` or
exactly `UInt16` is dispatched to the u16 scalar decode.  The source's match
arm is the single literal `"unsigned short|UInt16"` (a string containing
`'|'`), which neither tag equals, so both fall through to the default
nested-record branch: `deserialize_any` on a `StructValue` context whose
line carries tag `unsigned short` (resp. `UInt16`) selects `struct_`, not
`u16`.  This contradicts the spec's built-in tag table and the or-pattern
style used by the adjacent `"UInt8" | "unsigned char"` arm: a code bug. -/
theorem c1_unsigned_short_dispatches_to_struct :
    deserialize_any_branch c1_state_ushort =
      .ok .struct_ { c1_state_ushort with type_name := ("unsigned short").data } ∧
    deserialize_any_branch c1_state_u16tag =
      .ok .struct_ { c1_state_u16tag with type_name := ("UInt16").data } ∧
    AnyBranch.struct_ ≠ AnyBranch.u16 := by
  refine ⟨by decide, by decide, by decide⟩

def c3_invalid_state : DeState := mk_state ("x") [.Invalid]

def c3_short_state : DeState := mk_state ("a \n") [.StructValue, .Invalid]

/-- C3 counterexample: the claim says decode-any dispatch reached in the
`Invalid` context and string decoding of a token shorter than two characters
return a typed error instead of panicking.  At these concrete inputs the
embedded code aborts (`unreachable!` and the unchecked `content[1..len-1]`
slice respectively): the outcome is `panic`, not an `err`. -/
theorem c3_counterexample_panics :
    deserialize_any_branch c3_invalid_state = .panic ∧
    deserialize_string_de c3_short_state = .panic := by
  refine ⟨by decide, by decide⟩

/-- C3 amended: cursor-level failures are reported as typed error values,
but two paths abort the process instead: decode-any dispatch in the
`Invalid` context panics (`unreachable!`), and string decoding panics on the
unchecked first/last-character strip whenever the content token is shorter
than two characters; string decoding propagates token-read failures as
typed errors. -/
theorem c3_panic_characterization (s : DeState) :
    (current_status s = some .Invalid → deserialize_any_branch s = .panic) ∧
    (∀ content s1, get_content s = .ok content s1 → content.length < 2 →
      deserialize_string_de s = .panic) ∧
    (∀ e s1, get_content s = .err e s1 → deserialize_string_de s = .err e s1) := by
  refine ⟨?_, ?_, ?_⟩
  · intro h
    unfold deserialize_any_branch
    rw [h]
  · intro content s1 h hlen
    unfold deserialize_string_de
    rw [h]
    simp [hlen]
  · intro e s1 h
    unfold deserialize_string_de
    rw [h]

def c3_short_after : DeState := { c3_short_state with offset := 1 }

/-- C3 witness: the characterization applied at the two concrete inputs of
the counterexample. -/
theorem c3_panic_characterization_witness :
    current_status c3_invalid_state = some .Invalid ∧
    deserialize_any_branch c3_invalid_state = .panic ∧
    get_content c3_short_state = .ok (("a").data) c3_short_after ∧
    deserialize_string_de c3_short_state = .panic :=
  ⟨by decide,
   (c3_panic_characterization c3_invalid_state).1 (by decide),
   by decide,
   (c3_panic_characterization c3_short_state).2.1 (("a").data) c3_short_after
     (by decide) (by decide)⟩

/-- C7: while iterating a record's fields at required depth `D`, the first
time the upcoming line's leading-tab count falls below `D` the iterator
reports no more fields (`none`) without consuming any input (the state is
returned unchanged); at end of input the measured tab count is 0, so
iteration stops for every record depth `D ≥ 1`. -/
theorem c7_depth_terminates_iteration {α : Type} (seedDe : DeState → DeStep α)
    (D : Nat) (s : DeState) :
    (tab_count s < D → next_key_seed seedDe D s = .ok none s) ∧
    (s.offset = s.data.length → tab_count s = 0) ∧
    (s.offset = s.data.length → 1 ≤ D → next_key_seed seedDe D s = .ok none s) := by
  have htc : s.offset = s.data.length → tab_count s = 0 := by
    intro h
    unfold tab_count chars
    rw [List.drop_eq_nil_of_le (by omega)]
    simp [h]
  refine ⟨?_, htc, ?_⟩
  · intro h
    unfold next_key_seed
    simp [h]
  · intro h hD
    have h0 := htc h
    unfold next_key_seed
    simp [h0]
    intro hcon
    omega

def c7_wit_state : DeState := { mk_state ("x") [.Invalid] with offset := 1 }

def c7_wit_seed : DeState → DeStep Nat := fun s => .ok 0 s

/-- C7 witness: at end of input (`offset = length`), with required depth 1,
iteration stops without consuming. -/
theorem c7_depth_terminates_iteration_witness :
    tab_count c7_wit_state = 0 ∧
    next_key_seed c7_wit_seed 1 c7_wit_state = .ok none c7_wit_state :=
  ⟨(c7_depth_terminates_iteration c7_wit_seed 1 c7_wit_state).2.1 (by decide),
   (c7_depth_terminates_iteration c7_wit_seed 1 c7_wit_state).2.2 (by decide) (by decide)⟩

def c8_multi_state : DeState := mk_state ("abc") [.MultipleElement]

/-- C8 counterexample: the claim says every primitive cursor step either
advances the read offset or fails.  `skip_line` run in the
`MultipleElement` context succeeds and returns the state completely
unchanged — a successful primitive step consuming zero characters. -/
theorem c8_counterexample_zero_consumption :
    skip_line c8_multi_state = .ok () c8_multi_state ∧
    c8_multi_state.offset = 0 ∧ c8_multi_state.data.length = 3 := by
  refine ⟨by decide, by decide, by decide⟩

/-- C8 amended: `skip_until`, `next_char` and `skip_space` advance the
offset by at least one character or fail, and so does `skip_line` outside
the `MultipleElement` context; but `skip_line` inside the
`MultipleElement` context succeeds consuming zero characters, `skip 0` and
`skip_tab 0` succeed consuming zero characters (within bounds), and
identifier extraction succeeds with an empty result consuming zero
characters when the first character already ends the token.  Termination of
a bounded decode therefore cannot rest on the claim's blanket invariant. -/
theorem c8_progress_characterization (s : DeState) (d : Char) :
    (∀ u s', skip_until d s = .ok u s' → s.offset < s'.offset) ∧
    (∀ c s', next_char s = .ok c s' → s.offset < s'.offset) ∧
    (∀ u s', skip_space s = .ok u s' → s.offset < s'.offset) ∧
    (current_status s ≠ some .MultipleElement →
      ∀ u s', skip_line s = .ok u s' → s.offset < s'.offset) ∧
    (current_status s = some .MultipleElement → skip_line s = .ok () s) ∧
    (s.offset ≤ s.data.length → skip 0 s = .ok () s ∧ skip_tab 0 s = .ok () s) ∧
    (∀ c rest, chars s = c :: rest → is_ident_char c = false →
      get_identifier s = .ok [] s) := by
  refine ⟨skip_until_ok_advances d s, ?_, skip_space_ok_advances s, ?_, ?_, ?_, ?_⟩
  · intro c s' h
    obtain ⟨h1, _⟩ := next_char_ok_eq s c s' h
    subst h1
    simp
  · intro hne u s' h
    unfold skip_line at h
    cases hcs : current_status s with
    | none => rw [hcs] at h; simp at h
    | some st =>
      rw [hcs] at h
      cases st with
      | MultipleElement => exact absurd hcs hne
      | SingleElement => exact skip_until_ok_advances '\n' s u s' h
      | StructKey => exact skip_until_ok_advances '\n' s u s' h
      | StructValue => exact skip_until_ok_advances '\n' s u s' h
      | Invalid => exact skip_until_ok_advances '\n' s u s' h
  · intro hm
    unfold skip_line
    rw [hm]
  · intro hle
    have hsk : skip 0 s = .ok () s := by
      unfold skip
      simp only [Nat.add_zero, hle, if_true]
    refine ⟨hsk, ?_⟩
    unfold skip_tab tab_check
    exact hsk
  · intro c rest hcs hic
    unfold get_identifier
    rw [hcs, List.findIdx?_cons]
    simp only [hic, Bool.not_false, if_true]
    unfold get_str
    have hlt : s.offset < s.data.length := by
      have : (chars s).length = s.data.length - s.offset := by
        unfold chars; simp
      rw [hcs] at this
      simp at this
      omega
    have hng : ¬ s.offset + 0 > s.data.length := by omega
    simp only [hng, if_false]
    have hsk : skip 0 s = .ok () s := by
      unfold skip
      simp only [Nat.add_zero]
      simp [Nat.le_of_lt hlt]
    rw [hsk]
    simp

def c8_wit_state : DeState := mk_state (" x\n") [.StructValue]

/-- C8 witness: the amended characterization applied at concrete inputs:
`skip_until '\n'` advances on a state holding a newline; `skip_line` in
`MultipleElement` context is the identity; `skip 0` and `skip_tab 0`
succeed in place; `get_identifier` at a leading space returns empty without
consuming. -/
theorem c8_progress_characterization_witness :
    (skip_until '\n' c8_wit_state = .ok () { c8_wit_state with offset := 3 } →
      c8_wit_state.offset < 3) ∧
    skip_line c8_multi_state = .ok () c8_multi_state ∧
    skip 0 c8_wit_state = .ok () c8_wit_state ∧
    skip_tab 0 c8_wit_state = .ok () c8_wit_state ∧
    get_identifier c8_wit_state = .ok [] c8_wit_state :=
  ⟨fun h => by
      have := (c8_progress_characterization c8_wit_state '\n').1 ()
        { c8_wit_state with offset := 3 } h
      simpa using this,
   (c8_progress_characterization c8_multi_state '\n').2.2.2.2.1 (by decide),
   ((c8_progress_characterization c8_wit_state '\n').2.2.2.2.2.1 (by decide)).1,
   ((c8_progress_characterization c8_wit_state '\n').2.2.2.2.2.1 (by decide)).2,
   (c8_progress_characterization c8_wit_state '\n').2.2.2.2.2.2 ' ' (("x\n").data)
     (by decide) (by decide)⟩

/-- C9: the first next-element call of a sequence whose previously read size
is 0 is exactly a line-skip reporting end-of-sequence: the discriminator is
never examined (the guard `current == 0 && count != 0` is false), nothing is
pushed and nothing is popped, and the access state is returned unchanged;
moreover the line-skip itself leaves the status stack and every ghost
counter (in particular the discriminator-consultation counter) untouched,
and reports `none` whenever it succeeds. -/
theorem c9_zero_size_seq {α : Type} (seedDe : DeState → DeStep α) (a : SeqSt)
    (s : DeState) (hc : a.count = 0) (hcur : a.current = 0) :
    next_element_seed seedDe a s =
      ((match skip_line s with
        | .ok _ s' => .ok none s'
        | .err e s' => .err e s'
        | .panic => .panic), a) ∧
    (∀ u s', skip_line s = .ok u s' → s'.status = s.status ∧
      s'.ghostDiscrim = s.ghostDiscrim ∧ s'.ghostHeaders = s.ghostHeaders ∧
      s'.ghostSpaces = s.ghostSpaces) := by
  constructor
  · obtain ⟨atab, acur, acnt, amul, afk⟩ := a
    simp only at hc hcur
    subst hc
    subst hcur
    unfold next_element_seed
    simp only [bne_self_eq_false, Bool.and_false, Bool.false_eq_true, if_false,
      beq_self_eq_true, if_true]
    cases skip_line s <;> simp
  · intro u s' h
    unfold skip_line at h
    cases hcs : current_status s with
    | none => rw [hcs] at h; simp at h
    | some st =>
      rw [hcs] at h
      have hgen : skip_until '\n' s = .ok u s' →
          s'.status = s.status ∧ s'.ghostDiscrim = s.ghostDiscrim ∧
          s'.ghostHeaders = s.ghostHeaders ∧ s'.ghostSpaces = s.ghostSpaces := by
        intro hsu
        unfold skip_until at hsu
        obtain ⟨h1, _⟩ := skip_ok_eq _ s u s' hsu
        subst h1
        simp
      cases st with
      | MultipleElement =>
        simp only at h
        injection h with _ h2
        subst h2
        simp
      | SingleElement => exact hgen h
      | StructKey => exact hgen h
      | StructValue => exact hgen h
      | Invalid => exact hgen h

def c9_wit_seed : DeState → DeStep Nat := fun s => .ok 7 s

def c9_wit_access : SeqSt :=
  { tab := 1, current := 0, count := 0, multiple := false, faked := false }

def c9_wit_state : DeState := mk_state ("x\n") [.StructValue]

/-- C9 witness: on a concrete zero-size sequence the first call returns
`none` after the line-skip, with the access state, the status stack and the
discriminator counter unchanged. -/
theorem c9_zero_size_seq_witness :
    next_element_seed c9_wit_seed c9_wit_access c9_wit_state =
      (.ok none { c9_wit_state with offset := 2 }, c9_wit_access) ∧
    ({ c9_wit_state with offset := 2 }).status = c9_wit_state.status ∧
    ({ c9_wit_state with offset := 2 }).ghostDiscrim = c9_wit_state.ghostDiscrim :=
  ⟨by
    have h := (c9_zero_size_seq c9_wit_seed c9_wit_access c9_wit_state
      (by decide) (by decide)).1
    rw [h]
    decide,
   by
    have h := (c9_zero_size_seq c9_wit_seed c9_wit_access c9_wit_state
      (by decide) (by decide)).2 () ({ c9_wit_state with offset := 2 }) (by decide)
    exact h.1,
   by
    have h := (c9_zero_size_seq c9_wit_seed c9_wit_access c9_wit_state
      (by decide) (by decide)).2 () ({ c9_wit_state with offset := 2 }) (by decide)
    exact h.2.1⟩

def c2_fail_seed : DeState → DeStep Nat := fun s => .err (.Other ("boom")) s

def c2_access : SeqSt :=
  { tab := 0, current := 0, count := 1, multiple := false, faked := false }

def c2_state : DeState := mk_state ("data 1 (int)\n") [.StructValue, .Invalid]

def c2_after : DeState :=
  { c2_state with
    offset := 5
    status := [.SingleElement, .StructValue, .Invalid]
    ghostSpaces := 1
    ghostDiscrim := 1 }

/-- C2 counterexample: the claim says the stack is restored to its entry
state before any error propagates out of `next_element_seed`.  On a
one-element sequence whose element decode fails, the first call pushes
`SingleElement` during shape discrimination and the error propagates with
that context still on the stack — the entry stack is not restored. -/
theorem c2_counterexample_element_leak :
    (next_element_seed c2_fail_seed c2_access c2_state).fst =
      .err (.Other ("boom")) c2_after ∧
    c2_after.status ≠ c2_state.status := by
  refine ⟨by decide, by decide⟩

/-- C2 amended: for field keys and field values the push is matched by
exactly one pop even when the inner decode fails — `next_key_seed` and
`next_value_seed` return (on success and on failure alike) a state whose
status stack equals their entry stack, provided the seed itself is
stack-preserving.  For sequence elements the context pushed at the first
element of a nonzero-count sequence is popped only by the terminating call:
when an error propagates out of `next_element_seed` on such a first call
(per-element shape), the returned state still carries the pushed
`SingleElement` context on top of the entry stack. -/
theorem c2_push_pop_pairing {α : Type} (seedDe : DeState → DeStep α)
    (hp : stack_pres seedDe) :
    (∀ D s, match next_key_seed seedDe D s with
      | .ok _ s' => s'.status = s.status
      | .err _ s' => s'.status = s.status
      | .panic => True) ∧
    (∀ s, match next_value_seed seedDe s with
      | .ok _ s' => s'.status = s.status
      | .err _ s' => s'.status = s.status
      | .panic => True) ∧
    (∀ a s, a.current = 0 → a.count ≠ 0 → regexMatch (peek_line s) = false →
      ∀ e s', (next_element_seed seedDe a s).fst = .err e s' →
        s'.status = .SingleElement :: s.status) := by
  refine ⟨?_, ?_, ?_⟩
  · intro D s
    unfold next_key_seed
    by_cases h : tab_count s < D
    · simp [h]
    · simp only [h, if_false]
      cases hv : skip_tab (tab_count s) s with
      | panic => simp
      | err e s1 =>
        have h1 := keeps_status_skip_tab (tab_count s) s
        rw [hv] at h1
        simpa using h1
      | ok u s1 =>
        dsimp only
        have h1 : s1.status = s.status := by
          have := keeps_status_skip_tab (tab_count s) s
          rw [hv] at this
          simpa using this
        cases hv2 : seedDe (push_status .StructKey s1) with
        | panic => simp
        | ok v s2 =>
          have h2 : s2.status = .StructKey :: s1.status := by
            have := hp (push_status .StructKey s1)
            rw [hv2] at this
            simpa [push_status] using this
          simp [pop_status, h2, h1]
        | err e s2 =>
          have h2 : s2.status = .StructKey :: s1.status := by
            have := hp (push_status .StructKey s1)
            rw [hv2] at this
            simpa [push_status] using this
          simp [pop_status, h2, h1]
  · intro s
    unfold next_value_seed
    cases hv : next_char s with
    | panic => simp
    | err e s1 =>
      have h1 := keeps_status_next_char s
      rw [hv] at h1
      simpa using h1
    | ok c s1 =>
      have h1 : s1.status = s.status := by
        have := keeps_status_next_char s
        rw [hv] at this
        simpa using this
      by_cases hc : c = ' '
      · dsimp only
        simp only [hc, bne_self_eq_false, Bool.false_eq_true, if_false]
        cases hv2 : seedDe (push_status .StructValue s1) with
        | panic => simp
        | ok v s2 =>
          have h2 : s2.status = .StructValue :: s1.status := by
            have := hp (push_status .StructValue s1)
            rw [hv2] at this
            simpa [push_status] using this
          simp [pop_status, h2, h1]
        | err e s2 =>
          have h2 : s2.status = .StructValue :: s1.status := by
            have := hp (push_status .StructValue s1)
            rw [hv2] at this
            simpa [push_status] using this
          simp [pop_status, h2, h1]
      · have hb : (c != ' ') = true := by simpa using hc
        simp [hb, h1]
  · intro a s hcur hcnt hreg e s' hfst
    obtain ⟨atab, acur, acnt, amul, afk⟩ := a
    simp only at hcur hcnt
    subst hcur
    have hbne : (acnt != 0) = true := by simpa using hcnt
    have hbeq : (0 == acnt) = false := by
      simp only [beq_eq_false_iff_ne]
      omega
    unfold next_element_seed at hfst
    simp only [is_seq_multi, hreg] at hfst
    simp only [beq_self_eq_true, hbne, Bool.true_and, if_true,
      Bool.false_eq_true, if_false, hbeq] at hfst
    set sp := push_status .SingleElement
      { s with ghostDiscrim := s.ghostDiscrim + 1 } with hsp
    have hspst : sp.status = .SingleElement :: s.status := by
      rw [hsp]
      simp [push_status]
    cases hv : skip_tab atab sp with
    | panic => rw [hv] at hfst; simp at hfst
    | err e1 s1 =>
      rw [hv] at hfst
      have h1 := keeps_status_skip_tab atab sp
      rw [hv] at h1
      simp only at h1 hfst
      injection hfst with h2 h3
      subst h2
      subst h3
      rw [h1, hspst]
    | ok u s1 =>
      rw [hv] at hfst
      simp only at hfst
      have h1 : s1.status = sp.status := by
        have := keeps_status_skip_tab atab sp
        rw [hv] at this
        simpa using this
      cases hv2 : get_identifier s1 with
      | panic => rw [hv2] at hfst; simp at hfst
      | err e1 s2 =>
        rw [hv2] at hfst
        have h2 := keeps_status_get_identifier s1
        rw [hv2] at h2
        simp only at h2 hfst
        injection hfst with h3 h4
        subst h3
        subst h4
        rw [h2, h1, hspst]
      | ok id s2 =>
        rw [hv2] at hfst
        simp only at hfst
        have h2 : s2.status = sp.status := by
          have := keeps_status_get_identifier s1
          rw [hv2] at this
          simp only at this
          rw [this, h1]
        by_cases hid : id = ("data").data
        · simp only [hid, ne_eq, not_true_eq_false, false_and, if_false] at hfst
          cases hv3 : skip_space s2 with
          | panic => rw [hv3] at hfst; simp at hfst
          | err e1 s3 =>
            rw [hv3] at hfst
            have h3 := keeps_status_skip_space s2
            rw [hv3] at h3
            simp only at h3 hfst
            injection hfst with h4 h5
            subst h4
            subst h5
            rw [h3, h2, hspst]
          | ok u2 s3 =>
            rw [hv3] at hfst
            simp only at hfst
            have h3 : s3.status = sp.status := by
              have := keeps_status_skip_space s2
              rw [hv3] at this
              simp only at this
              rw [this, h2]
            cases hv4 : seedDe s3 with
            | panic => rw [hv4] at hfst; simp at hfst
            | ok v s4 => rw [hv4] at hfst; simp at hfst
            | err e1 s4 =>
              rw [hv4] at hfst
              have h4 := hp s3
              rw [hv4] at h4
              simp only at h4 hfst
              injection hfst with h5 h6
              subst h5
              subst h6
              rw [h4, h3, hspst]
        · by_cases hfk : afk = false
          · simp only [hfk, hid, ne_eq, not_false_eq_true, true_and, if_true,
              Bool.not_false] at hfst
            injection hfst with h3 h4
            subst h3
            subst h4
            rw [h2, hspst]
          · have hfk' : afk = true := by
              cases afk
              · exact absurd rfl hfk
              · rfl
            simp only [hfk', Bool.not_true, and_false, if_false,
              Bool.false_eq_true] at hfst
            cases hv3 : skip_space s2 with
            | panic => rw [hv3] at hfst; simp at hfst
            | err e1 s3 =>
              rw [hv3] at hfst
              have h3 := keeps_status_skip_space s2
              rw [hv3] at h3
              simp only at h3 hfst
              injection hfst with h4 h5
              subst h4
              subst h5
              rw [h3, h2, hspst]
            | ok u2 s3 =>
              rw [hv3] at hfst
              simp only at hfst
              have h3 : s3.status = sp.status := by
                have := keeps_status_skip_space s2
                rw [hv3] at this
                simp only at this
                rw [this, h2]
              cases hv4 : seedDe s3 with
              | panic => rw [hv4] at hfst; simp at hfst
              | ok v s4 => rw [hv4] at hfst; simp at hfst
              | err e1 s4 =>
                rw [hv4] at hfst
                have h4 := hp s3
                rw [hv4] at h4
                simp only at h4 hfst
                injection hfst with h5 h6
                subst h5
                subst h6
                rw [h4, h3, hspst]

def c2_wit_seed : DeState → DeStep Nat := fun s => .ok 3 s

def c2_wit_key_state : DeState := mk_state ("name 1 (int)\n") [.Invalid]

/-- C2 witness: the amended pairing applied at a concrete stack-preserving
seed: a key read and a failing element decode, showing the restored and the
leaked stack respectively. -/
theorem c2_push_pop_pairing_witness :
    (match next_key_seed c2_wit_seed 0 c2_wit_key_state with
      | .ok _ s' => s'.status = c2_wit_key_state.status
      | .err _ s' => s'.status = c2_wit_key_state.status
      | .panic => True) ∧
    ((next_element_seed c2_fail_seed c2_access c2_state).fst =
        .err (.Other ("boom")) c2_after →
      c2_after.status = .SingleElement :: c2_state.status) :=
  ⟨(c2_push_pop_pairing c2_wit_seed (fun s => by simp [c2_wit_seed])).1
      0 c2_wit_key_state,
   fun h => by
    have := (c2_push_pop_pairing c2_fail_seed
        (fun s => by simp [c2_fail_seed])).2.2 c2_access c2_state
        (by decide) (by decide) (by decide) (.Other ("boom")) c2_after
        (by rw [h])
    exact this⟩

lemma findIdx?_append_of_some {p : Char → Bool} {l l2 : List Char} {i r : Nat}
    (h : List.findIdx? p l i = some r) :
    List.findIdx? p (l ++ l2) i = some r := by
  induction l generalizing i with
  | nil => simp [List.findIdx?_nil] at h
  | cons x xs ih =>
    rw [List.findIdx?_cons] at h
    rw [List.cons_append, List.findIdx?_cons]
    by_cases hp : p x
    · simpa [hp] using h
    · simp only [hp, if_false] at h ⊢
      exact ih h

lemma header_pos_append {l l2 : List Char} {cur idx p : Nat}
    (h : header_pos l cur idx = some p) :
    header_pos (l ++ l2) cur idx = some p := by
  induction l generalizing cur idx with
  | nil => simp [header_pos] at h
  | cons x xs ih =>
    rw [header_pos] at h
    rw [List.cons_append, header_pos]
    by_cases h3 :
        (if x == '\n' then cur + 1 else if x == '\r' then cur else 0) = 3
    · simp only [h3]
      simp only [h3] at h
      simpa using h
    · have h3f :
          ((if x == '\n' then cur + 1 else if x == '\r' then cur else 0) == 3)
            = false := by
        simpa using h3
      simp only [h3f, Bool.false_eq_true, if_false] at h ⊢
      exact ih h

lemma chars_extendBuf {b : Char} {s : DeState} (h : s.offset ≤ s.data.length) :
    chars (extendBuf b s) = chars s ++ [b] := by
  unfold chars extendBuf
  simp only
  rw [List.drop_append_eq_append_drop]
  have : s.offset - s.data.length = 0 := by omega
  rw [this]
  simp

lemma skip_extend {c : Nat} {s : DeState} {u : Unit} {s' : DeState} (b : Char)
    (h : skip c s = .ok u s') : skip c (extendBuf b s) = .ok u (extendBuf b s') := by
  obtain ⟨h1, hle⟩ := skip_ok_eq c s u s' h
  subst h1
  unfold skip extendBuf
  simp only [List.length_append, List.length_cons, List.length_nil]
  have : s.offset + c ≤ s.data.length + 1 := by omega
  simp [this]

lemma skip_until_extend {d : Char} {s : DeState} {u : Unit} {s' : DeState} (b : Char)
    (h : skip_until d s = .ok u s') :
    skip_until d (extendBuf b s) = .ok u (extendBuf b s') := by
  unfold skip_until at h ⊢
  obtain ⟨h1, hle⟩ := skip_ok_eq _ s u s' h
  have hoff : s.offset ≤ s.data.length := by omega
  have hcu : count_until d (extendBuf b s) = count_until d s := by
    unfold count_until at hle ⊢
    cases hf : (chars s).findIdx? (fun c => c == d) with
    | some p =>
      rw [chars_extendBuf hoff, findIdx?_append_of_some hf]
    | none =>
      unfold remaining at hle
      simp only [hf] at hle
      omega
  rw [hcu]
  exact skip_extend b h

lemma skip_header_extend {s : DeState} {u : Unit} {s' : DeState} (b : Char)
    (h : skip_header s = .ok u s') :
    skip_header (extendBuf b s) = .ok u (extendBuf b s') := by
  unfold skip_header at h ⊢
  cases hf : header_pos (chars s) 0 0 with
  | none => rw [hf] at h; simp at h
  | some pos =>
    rw [hf] at h
    obtain ⟨_, hle⟩ := skip_ok_eq _ s u s' h
    have hoff : s.offset ≤ s.data.length := by omega
    rw [chars_extendBuf hoff, header_pos_append hf]
    exact skip_extend b h

lemma skip_line_extend {s : DeState} {u : Unit} {s' : DeState} (b : Char)
    (h : skip_line s = .ok u s') :
    skip_line (extendBuf b s) = .ok u (extendBuf b s') := by
  unfold skip_line current_status at h ⊢
  have hst : (extendBuf b s).status = s.status := by
    unfold extendBuf
    simp
  rw [hst]
  cases hh : s.status.head? with
  | none => rw [hh] at h; simp at h
  | some st =>
    rw [hh] at h
    cases st with
    | MultipleElement =>
      simp only at h ⊢
      injection h with _ h2
      subst h2
      rfl
    | SingleElement => exact skip_until_extend b h
    | StructKey => exact skip_until_extend b h
    | StructValue => exact skip_until_extend b h
    | Invalid => exact skip_until_extend b h

/-- C4: the top-level decode, after the root value is produced, consumes
exactly two further lines and returns the value precisely when the buffer
is fully exhausted: a successful `from_str` ends with zero characters
unconsumed, and the same document with one extra byte appended fails with
the trailing-data error (given that the root decoder treats the extended
buffer the same way, which every cursor-based decoder does). -/
theorem c4_exhaustion_and_trailing {α : Type} (rootDe : DeState → DeStep α)
    (data : List Char) (t : α) (sF : DeState) (b : Char)
    (hloc : ∀ s t' s', rootDe s = .ok t' s' →
      rootDe (extendBuf b s) = .ok t' (extendBuf b s'))
    (hok : from_str rootDe data = .ok t sF) :
    is_empty sF = true ∧
    is_trailing (from_str rootDe (data ++ [b])) = true := by
  have hinit : init_state (data ++ [b]) = extendBuf b (init_state data) := rfl
  unfold from_str at hok
  dsimp only at hok
  cases h1 : skip_header (init_state data) with
  | err e s => rw [h1] at hok; simp at hok
  | panic => rw [h1] at hok; simp at hok
  | ok u1 s1 =>
    rw [h1] at hok
    dsimp only at hok
    cases h2 : skip_until ')' s1 with
    | err e s => rw [h2] at hok; simp at hok
    | panic => rw [h2] at hok; simp at hok
    | ok u2 s2 =>
      rw [h2] at hok
      dsimp only at hok
      cases h3 : rootDe s2 with
      | err e s => rw [h3] at hok; simp at hok
      | panic => rw [h3] at hok; simp at hok
      | ok t3 s3 =>
        rw [h3] at hok
        dsimp only at hok
        cases h4 : skip_line s3 with
        | err e s => rw [h4] at hok; simp at hok
        | panic => rw [h4] at hok; simp at hok
        | ok u4 s4 =>
          rw [h4] at hok
          dsimp only at hok
          cases h5 : skip_line s4 with
          | err e s => rw [h5] at hok; simp at hok
          | panic => rw [h5] at hok; simp at hok
          | ok u5 s5 =>
            rw [h5] at hok
            dsimp only at hok
            by_cases hemp : is_empty s5 = true
            · simp only [hemp, if_true] at hok
              injection hok with hok1 hok2
              subst hok1
              subst hok2
              refine ⟨hemp, ?_⟩
              unfold from_str
              dsimp only
              rw [hinit, skip_header_extend b h1]
              dsimp only
              rw [skip_until_extend b h2]
              dsimp only
              rw [hloc s2 t3 s3 h3]
              dsimp only
              rw [skip_line_extend b h4]
              dsimp only
              rw [skip_line_extend b h5]
              dsimp only
              have hne : is_empty (extendBuf b s5) = false := by
                unfold is_empty at hemp ⊢
                unfold extendBuf
                simp only [List.length_append, List.length_cons, List.length_nil]
                simp only [beq_iff_eq] at hemp
                simp only [beq_eq_false_iff_ne]
                omega
              rw [hne]
              simp only [Bool.false_eq_true, if_false]
              unfold is_trailing
              dsimp only
              rw [String.data_append, String.data_append, List.append_assoc]
              rw [List.take_append_of_le_length
                (by decide : (12 : Nat) ≤ (("tailing data:'").data).length)]
              decide
            · simp only [hemp, Bool.false_eq_true, if_false] at hok
              simp at hok

def c4_root : DeState → DeStep Nat := fun s => .ok 0 s

def c4_data : List Char := ("\n\n\n)a\nb\n").data

def c4_final : DeState := { init_state c4_data with offset := 8 }

/-- C4 witness: a concrete well-formed document (banner, root line, two
trailing lines) decodes with zero bytes unconsumed, and the same document
with one extra byte appended fails with the trailing-data error. -/
theorem c4_exhaustion_and_trailing_witness :
    from_str c4_root c4_data = .ok 0 c4_final ∧
    is_empty c4_final = true ∧
    is_trailing (from_str c4_root (c4_data ++ ['z'])) = true := by
  have hloc : ∀ s t' s', c4_root s = .ok t' s' →
      c4_root (extendBuf 'z' s) = .ok t' (extendBuf 'z' s') := by
    intro s t' s' h
    simp only [c4_root] at h ⊢
    injection h with h1 h2
    subst h1
    subst h2
    rfl
  have hok : from_str c4_root c4_data = .ok 0 c4_final := by decide
  have hmain := c4_exhaustion_and_trailing c4_root c4_data 0 c4_final 'z' hloc hok
  exact ⟨hok, hmain.1, hmain.2⟩

lemma hash_loop_length (n : Nat) :
    ∀ acc a s h sF, hash_loop n acc a s = .ok h sF →
      h.length = acc.length + n := by
  induction n with
  | zero =>
    intro acc a s h sF hstep
    unfold hash_loop at hstep
    injection hstep with h1 _
    subst h1
    simp
  | succ n ih =>
    intro acc a s h sF hstep
    unfold hash_loop at hstep
    cases hne : next_element_seed deserialize_u8_de a s with
    | mk fst a' =>
      rw [hne] at hstep
      cases fst with
      | ok v s' =>
        cases v with
        | none => simp at hstep
        | some b =>
          have := ih (acc ++ [b]) a' s' h sF hstep
          simp at this
          omega
      | err e s' => simp at hstep
      | panic => simp at hstep

/-- C6: decoding a `Hash128` value always takes the faked fixed-length path
with the hardcoded count 16.  First, `deserialize_seq` with the `Hash128`
visitor goes straight from the initial line-skip to the visitor with the
access state `⟨current 0, count 16, faked⟩` — it never reads a
`size <N> (int)` line (the size-branch does not occur on the right-hand
side).  Second, a successful `Hash128` decode yields exactly 16 unsigned
byte elements.  Third, in the faked per-element shape the step never
requires the `data` keyword: it coincides with the model step that accepts
any identifier. -/
theorem c6_hash128_fixed_sixteen :
    (∀ (β : Type) (visitSeq : SeqSt → DeState → DeStep β) (s : DeState),
      deserialize_seq "Hash128" visitSeq s =
        match skip_line s with
        | .err e s1 => .err e s1
        | .panic => .panic
        | .ok _ s1 =>
          match visitSeq { tab := s1.tab + 1, current := 0, count := 16,
                           multiple := false, faked := true }
              { s1 with tab := s1.tab + 1 } with
          | .ok v s4 => .ok v { s4 with tab := s4.tab - 1 }
          | .err e s4 => .err e { s4 with tab := s4.tab - 1 }
          | .panic => .panic) ∧
    (∀ s h sF, hash128_de s = .ok h sF → h.length = 16) ∧
    (∀ (α : Type) (seedDe : DeState → DeStep α) (a : SeqSt) (s : DeState),
      a.faked = true → a.multiple = false → a.current ≠ 0 → a.current ≠ a.count →
      next_element_seed seedDe a s = faked_step_model seedDe a s) := by
  refine ⟨?_, ?_, ?_⟩
  · intro β visitSeq s
    unfold deserialize_seq countFaked
    cases hv : skip_line s <;> rfl
  · intro s h sF hok
    unfold hash128_de deserialize_seq at hok
    cases h1 : skip_line s with
    | err e s1 => rw [h1] at hok; simp at hok
    | panic => rw [h1] at hok; simp at hok
    | ok u s1 =>
      rw [h1] at hok
      dsimp only at hok
      unfold countFaked at hok
      simp only [beq_self_eq_true, if_true] at hok
      cases h2 : hash_loop 16 []
          { tab := s1.tab + 1, current := 0, count := 16,
            multiple := false, faked := true }
          { s1 with tab := s1.tab + 1 } with
      | ok v s4 =>
        rw [h2] at hok
        injection hok with h3 h4
        have hl := hash_loop_length 16 [] _ _ v s4 h2
        rw [h3] at hl
        simpa using hl
      | err e s4 => rw [h2] at hok; simp at hok
      | panic => rw [h2] at hok; simp at hok
  · intro α seedDe a s hfk hm hc0 hcc
    obtain ⟨atab, acur, acnt, amul, afk⟩ := a
    simp only at hfk hm hc0 hcc
    subst hfk
    subst hm
    have hb0 : (acur == 0) = false := by simpa using hc0
    have hbc : (acur == acnt) = false := by simpa using hcc
    unfold next_element_seed faked_step_model
    simp only [hb0, Bool.false_and, Bool.false_eq_true, if_false, hbc,
      Bool.not_true, and_false]

def c6_input : String :=
  "h\n\ta 5\n\ta 5\n\ta 5\n\ta 5\n\ta 5\n\ta 5\n\ta 5\n\ta 5\n\ta 5\n\ta 5\n\ta 5\n\ta 5\n\ta 5\n\ta 5\n\ta 5\n\ta 5\n"

def c6_state : DeState := mk_state c6_input [.StructValue, .Invalid]

def c6_final : DeState :=
  { c6_state with
    offset := 82
    status := [.SingleElement, .StructValue, .Invalid]
    ghostSpaces := 16
    ghostDiscrim := 1 }

def c6_bytes : List Nat := List.replicate 16 5

def c6_acc : SeqSt :=
  { tab := 1, current := 3, count := 16, multiple := false, faked := true }

def c6_seed : DeState → DeStep Nat := fun s => .ok 0 s

/-- C6 witness: a concrete 16-line hash body (with no `size` line, and
element lines whose identifier is not `data`) decodes to exactly 16 bytes,
and a concrete faked mid-sequence step equals the model step with no
`data`-keyword requirement. -/
theorem c6_hash128_fixed_sixteen_witness :
    hash128_de c6_state = .ok c6_bytes c6_final ∧
    c6_bytes.length = 16 ∧
    next_element_seed c6_seed c6_acc c6_state =
      faked_step_model c6_seed c6_acc c6_state :=
  ⟨by decide,
   (c6_hash128_fixed_sixteen).2.1 c6_state c6_bytes c6_final (by decide),
   (c6_hash128_fixed_sixteen).2.2 Nat c6_seed c6_acc c6_state
     (by decide) (by decide) (by decide) (by decide)⟩

lemma skip_array_header_ok_ghost {s : DeState} {u : Unit} {s' : DeState}
    (h : skip_array_header s = .ok u s') :
    s'.ghostHeaders = s.ghostHeaders + 1 ∧ s'.ghostSpaces = s.ghostSpaces ∧
    s'.status = s.status := by
  unfold skip_array_header at h
  cases hv : skip (count_until ':' s + 1) s with
  | ok u2 s1 =>
    rw [hv] at h
    obtain ⟨he, _⟩ := skip_ok_eq _ _ _ _ hv
    subst he
    injection h with _ h2
    subst h2
    simp
  | err e s1 => rw [hv] at h; simp at h
  | panic => rw [hv] at h; simp at h

lemma skip_space_ok_ghost {s : DeState} {u : Unit} {s' : DeState}
    (h : skip_space s = .ok u s') :
    s'.ghostSpaces = s.ghostSpaces + 1 ∧ s'.ghostHeaders = s.ghostHeaders ∧
    s'.status = s.status := by
  unfold skip_space at h
  cases hv : next_char s with
  | ok c s1 =>
    rw [hv] at h
    obtain ⟨he, _⟩ := next_char_ok_eq s c s1 hv
    by_cases hw : is_ascii_whitespace c
    · simp only [hw, Bool.not_true, Bool.false_eq_true, if_false] at h
      injection h with _ h2
      subst h2
      subst he
      simp
    · simp [hw] at h
  | err e s1 => rw [hv] at h; simp at h
  | panic => rw [hv] at h; simp at h

lemma skip_line_ok_ghost {s : DeState} {u : Unit} {s' : DeState}
    (h : skip_line s = .ok u s') :
    s'.ghostHeaders = s.ghostHeaders ∧ s'.ghostSpaces = s.ghostSpaces ∧
    s'.status = s.status := by
  unfold skip_line at h
  cases hcs : current_status s with
  | none => rw [hcs] at h; simp at h
  | some st =>
    rw [hcs] at h
    have hgen : skip_until '\n' s = .ok u s' →
        s'.ghostHeaders = s.ghostHeaders ∧ s'.ghostSpaces = s.ghostSpaces ∧
        s'.status = s.status := by
      intro hsu
      unfold skip_until at hsu
      obtain ⟨h1, _⟩ := skip_ok_eq _ s u s' hsu
      subst h1
      simp
    cases st with
    | MultipleElement =>
      simp only at h
      injection h with _ h2
      subst h2
      simp
    | SingleElement => exact hgen h
    | StructKey => exact hgen h
    | StructValue => exact hgen h
    | Invalid => exact hgen h

lemma headers_between_closed :
    ∀ d cur, headers_between cur (cur + d) = (cur + d + 24) / 25 - (cur + 24) / 25 := by
  intro d
  induction d with
  | zero =>
    intro cur
    rw [headers_between]
    simp
  | succ d ih =>
    intro cur
    rw [headers_between]
    have hlt : cur < cur + (d + 1) := by omega
    rw [if_pos hlt]
    have hre : cur + (d + 1) = (cur + 1) + d := by omega
    rw [hre, ih (cur + 1)]
    by_cases hr : cur % 25 = 0
    · have hrb : (cur % ArrayMemberColumns == 0) = true := by
        unfold ArrayMemberColumns
        simpa using hr
      rw [hrb]
      simp only [if_true]
      omega
    · have hrb : (cur % ArrayMemberColumns == 0) = false := by
        unfold ArrayMemberColumns
        simpa using hr
      rw [hrb]
      simp only [Bool.false_eq_true, if_false]
      omega

/-- The mid-sequence shape of `next_element_seed` once the tabular context
is established: no shape discrimination, a row header every 25 elements,
one space, then the seed. -/
lemma next_element_multi_step {α : Type} (seedDe : DeState → DeStep α)
    (a : SeqSt) (s : DeState) (hm : a.multiple = true) (hc : a.current ≠ 0) :
    next_element_seed seedDe a s =
      (if a.current == a.count then
        match skip_line (if a.count != 0 then pop_status s else s) with
        | .ok _ s'' => (.ok none s'', a)
        | .err e s'' => (.err e s'', a)
        | .panic => (.panic, a)
      else
        match (if a.current % ArrayMemberColumns == 0 then
                match skip_array_header s with
                | .ok _ sA => skip_space sA
                | .err e sA => .err e sA
                | .panic => .panic
              else skip_space s) with
        | .err e sZ => (.err e sZ, a)
        | .panic => (.panic, a)
        | .ok _ sZ =>
          match seedDe sZ with
          | .ok v sW => (.ok (some v) sW, { a with current := a.current + 1 })
          | .err e sW => (.err e sW, { a with current := a.current + 1 })
          | .panic => (.panic, { a with current := a.current + 1 })) := by
  obtain ⟨atab, acur, acnt, amul, afk⟩ := a
  simp only at hm hc
  subst hm
  have hb0 : (acur == 0) = false := by simpa using hc
  unfold next_element_seed
  simp only [hb0, Bool.false_and, Bool.false_eq_true, if_false, if_true]

lemma seq_drive_multi_invariant {α : Type} (seedDe : DeState → DeStep α)
    (hobs : preserves_obs seedDe) :
    ∀ fuel (a : SeqSt) (s : DeState) acc, a.multiple = true →
      1 ≤ a.current → a.current ≤ a.count → a.count - a.current < fuel →
      ∀ vs sF aF, seq_drive seedDe fuel a s acc = (.ok vs sF, aF) →
        vs.length = acc.length + (a.count - a.current) ∧
        sF.ghostHeaders = s.ghostHeaders + headers_between a.current a.count ∧
        sF.ghostSpaces = s.ghostSpaces + (a.count - a.current) ∧
        sF.status = s.status.tail := by
  intro fuel
  induction fuel with
  | zero =>
    intro a s acc _ _ _ hfuel
    omega
  | succ fuel ih =>
    intro a s acc hm h1 hlc hfuel vs sF aF hdrive
    rw [seq_drive] at hdrive
    rw [next_element_multi_step seedDe a s hm (by omega)] at hdrive
    by_cases hterm : a.current = a.count
    · have htb : (a.current == a.count) = true := by simpa using hterm
      rw [htb] at hdrive
      simp only [eq_self_iff_true, if_true] at hdrive
      have hcnt0 : (a.count != 0) = true := by
        have : a.count ≠ 0 := by omega
        simpa using this
      rw [hcnt0] at hdrive
      simp only [eq_self_iff_true, if_true] at hdrive
      cases hsl : skip_line (pop_status s) with
      | ok u s'' =>
        rw [hsl] at hdrive
        simp only at hdrive
        injection hdrive with hd1 hd2
        injection hd1 with hv1 hv2
        subst hv1
        subst hv2
        obtain ⟨g1, g2, g3⟩ := skip_line_ok_ghost hsl
        have hhb : headers_between a.current a.count = 0 := by
          rw [headers_between]
          simp [hterm]
        refine ⟨by simp [hterm], ?_, ?_, ?_⟩
        · rw [g1, hhb]
          simp [pop_status]
        · rw [g2]
          simp [pop_status]
          omega
        · rw [g3]
          simp [pop_status]
      | err e s'' => rw [hsl] at hdrive; simp at hdrive
      | panic => rw [hsl] at hdrive; simp at hdrive
    · have htb : (a.current == a.count) = false := by simpa using hterm
      rw [htb] at hdrive
      simp only [Bool.false_eq_true, if_false] at hdrive
      have hlt : a.current < a.count := by omega
      have hpre : ∀ sZ, (if a.current % ArrayMemberColumns == 0 then
              match skip_array_header s with
              | .ok _ sA => skip_space sA
              | .err e sA => .err e sA
              | .panic => .panic
            else skip_space s) = .ok () sZ →
          sZ.ghostHeaders = s.ghostHeaders +
            (if a.current % ArrayMemberColumns == 0 then 1 else 0) ∧
          sZ.ghostSpaces = s.ghostSpaces + 1 ∧ sZ.status = s.status := by
        intro sZ hz
        by_cases hcol : (a.current % ArrayMemberColumns == 0) = true
        · rw [hcol] at hz ⊢
          simp only [eq_self_iff_true, if_true] at hz ⊢
          cases hah : skip_array_header s with
          | ok u2 sA =>
            rw [hah] at hz
            obtain ⟨a1, a2, a3⟩ := skip_array_header_ok_ghost hah
            obtain ⟨b1, b2, b3⟩ := skip_space_ok_ghost hz
            refine ⟨by omega, by omega, by rw [b3, a3]⟩
          | err e sA => rw [hah] at hz; simp at hz
          | panic => rw [hah] at hz; simp at hz
        · have hcf : (a.current % ArrayMemberColumns == 0) = false := by
            cases hx : (a.current % ArrayMemberColumns == 0)
            · rfl
            · exact absurd hx hcol
          rw [hcf] at hz ⊢
          simp only [Bool.false_eq_true, if_false] at hz ⊢
          obtain ⟨b1, b2, b3⟩ := skip_space_ok_ghost hz
          exact ⟨by omega, by omega, b3⟩
      cases hz : (if a.current % ArrayMemberColumns == 0 then
              match skip_array_header s with
              | .ok _ sA => skip_space sA
              | .err e sA => .err e sA
              | .panic => .panic
            else skip_space s) with
      | ok uz sZ =>
        rw [hz] at hdrive
        dsimp only at hdrive
        obtain ⟨z1, z2, z3⟩ := hpre sZ hz
        cases hsd : seedDe sZ with
        | ok v sW =>
          rw [hsd] at hdrive
          simp only at hdrive
          have hw := hobs sZ
          rw [hsd] at hw
          simp only at hw
          obtain ⟨w1, w2, w3⟩ := hw
          have hrec := ih { a with current := a.current + 1 } sW (v :: acc)
            (by simpa using hm) (by dsimp only; omega) (by dsimp only; omega)
            (by dsimp only; omega) vs sF aF hdrive
          obtain ⟨r1, r2, r3, r4⟩ := hrec
          simp only at r1 r2 r3 r4
          have hhb : headers_between a.current a.count =
              (if a.current % ArrayMemberColumns == 0 then 1 else 0) +
              headers_between (a.current + 1) a.count := by
            rw [headers_between]
            rw [if_pos hlt]
          refine ⟨?_, ?_, ?_, ?_⟩
          · simp at r1
            omega
          · rw [r2, w1, z1, hhb]
            by_cases hcol : (a.current % ArrayMemberColumns == 0) = true
            · rw [hcol]
              simp only [if_true]
              omega
            · have hcf : (a.current % ArrayMemberColumns == 0) = false := by
                cases hx : (a.current % ArrayMemberColumns == 0)
                · rfl
                · exact absurd hx hcol
              rw [hcf]
              simp only [Bool.false_eq_true, if_false]
              omega
          · rw [r3, w2, z2]
            omega
          · rw [r4, w3, z3]
        | err e sW => rw [hsd] at hdrive; simp at hdrive
        | panic => rw [hsd] at hdrive; simp at hdrive
      | err e sZ => rw [hz] at hdrive; simp at hdrive
      | panic => rw [hz] at hdrive; simp at hdrive

lemma peek_type_state {s : DeState} {tn : List Char} {s' : DeState}
    (h : peek_type s = .ok tn s') : s' = s := by
  unfold peek_type at h
  dsimp only at h
  cases h1 : rfind_lparen (peek_line s) with
  | none => rw [h1] at h; simp at h
  | some bgn =>
    rw [h1] at h
    dsimp only at h
    cases h2 : ((peek_line s).drop (bgn + 1)).findIdx? (fun c => c == ')') with
    | none => rw [h2] at h; simp at h
    | some e =>
      rw [h2] at h
      dsimp only at h
      injection h with _ h3
      exact h3.symm

/-- C5: a dense tabular sequence of nonzero element count `C`, decoded in
`MultipleElement` context (the first line matches the tabular-row pattern),
consumes a row header exactly before the elements whose running index is a
multiple of 25 — `(C + 24) / 25 = ⌈C/25⌉` headers in total — skips exactly
one separating space before each element's token, and yields exactly `C`
elements; the element context is popped by the terminating call, restoring
the entry stack. -/
theorem c5_tabular_packing {α : Type} (seedDe : DeState → DeStep α)
    (hobs : preserves_obs seedDe) (C : Nat) (a0 : SeqSt) (s0 : DeState)
    (hcur : a0.current = 0) (hcnt : a0.count = C) (hC : C ≠ 0)
    (hreg : regexMatch (peek_line s0) = true)
    (vs : List α) (sF : DeState) (aF : SeqSt)
    (hdrive : seq_drive seedDe (C + 1) a0 s0 [] = (.ok vs sF, aF)) :
    vs.length = C ∧
    sF.ghostHeaders = s0.ghostHeaders + (C + 24) / 25 ∧
    sF.ghostSpaces = s0.ghostSpaces + C ∧
    sF.status = s0.status := by
  obtain ⟨atab, acur, acnt, amul, afk⟩ := a0
  simp only at hcur hcnt
  subst hcur
  subst hcnt
  rw [seq_drive] at hdrive
  unfold next_element_seed at hdrive
  dsimp only at hdrive
  have hCb : (acnt != 0) = true := by simpa using hC
  simp only [beq_self_eq_true, Bool.true_and, hCb, if_true] at hdrive
  simp only [is_seq_multi, hreg] at hdrive
  cases hpt : peek_type { s0 with ghostDiscrim := s0.ghostDiscrim + 1 } with
  | err e s2 => rw [hpt] at hdrive; simp at hdrive
  | panic => rw [hpt] at hdrive; simp at hdrive
  | ok tn s2 =>
    rw [hpt] at hdrive
    simp only [if_true] at hdrive
    dsimp only at hdrive
    have hs2 := peek_type_state hpt
    have h0C : (0 == acnt) = false := by
      simp only [beq_eq_false_iff_ne]
      omega
    rw [h0C] at hdrive
    simp only [Bool.false_eq_true, if_false] at hdrive
    cases hah : skip_array_header
        (push_status .MultipleElement { s2 with type_name := tn }) with
    | err e sA => rw [hah] at hdrive; simp at hdrive
    | panic => rw [hah] at hdrive; simp at hdrive
    | ok uA sA =>
      rw [hah] at hdrive
      dsimp only at hdrive
      obtain ⟨a1, a2, a3⟩ := skip_array_header_ok_ghost hah
      cases hsp : skip_space sA with
      | err e sZ => rw [hsp] at hdrive; simp at hdrive
      | panic => rw [hsp] at hdrive; simp at hdrive
      | ok uZ sZ =>
        rw [hsp] at hdrive
        simp only [Nat.zero_mod, beq_self_eq_true, eq_self_iff_true,
          if_true] at hdrive
        obtain ⟨b1, b2, b3⟩ := skip_space_ok_ghost hsp
        cases hsd : seedDe sZ with
        | err e sW => rw [hsd] at hdrive; simp at hdrive
        | panic => rw [hsd] at hdrive; simp at hdrive
        | ok v sW =>
          rw [hsd] at hdrive
          dsimp only at hdrive
          have hw := hobs sZ
          rw [hsd] at hw
          simp only at hw
          obtain ⟨w1, w2, w3⟩ := hw
          have hrec := seq_drive_multi_invariant seedDe hobs acnt
            { tab := atab, current := 0 + 1, count := acnt, multiple := true,
              faked := afk } sW [v]
            rfl (by dsimp only; omega) (by dsimp only; omega)
            (by dsimp only; omega) vs sF aF hdrive
          obtain ⟨r1, r2, r3, r4⟩ := hrec
          dsimp only at r1 r2 r3 r4
          simp only [List.length_cons, List.length_nil, Nat.zero_add] at r1 r2 r3
          have hclosed := headers_between_closed (acnt - 1) 1
          have hone : 1 + (acnt - 1) = acnt := by omega
          rw [hone] at hclosed
          have hpgh : (push_status .MultipleElement
              { s2 with type_name := tn }).ghostHeaders = s0.ghostHeaders := by
            rw [hs2]
            simp [push_status]
          have hpgs : (push_status .MultipleElement
              { s2 with type_name := tn }).ghostSpaces = s0.ghostSpaces := by
            rw [hs2]
            simp [push_status]
          have hpst : (push_status .MultipleElement
              { s2 with type_name := tn }).status =
              .MultipleElement :: s0.status := by
            rw [hs2]
            simp [push_status]
          refine ⟨by omega, ?_, ?_, ?_⟩
          · rw [r2, w1, b2, a1, hpgh]
            omega
          · rw [r3, w2, b1, a2, hpgs]
            omega
          · rw [r4, w3, b3, a3, hpst]
            simp

def c5_seed : DeState → DeStep Nat := fun s => .ok 0 s

def c5_acc0 : SeqSt :=
  { tab := 1, current := 0, count := 1, multiple := false, faked := false }

def c5_state : DeState := mk_state ("data (int) #0: 7\n") [.StructValue, .Invalid]

def c5_final : DeState :=
  { c5_state with
    offset := 17
    type_name := ("int").data
    ghostHeaders := 1
    ghostSpaces := 1
    ghostDiscrim := 1 }

def c5_accF : SeqSt :=
  { tab := 1, current := 1, count := 1, multiple := true, faked := false }

/-- C5 witness: on a concrete one-element tabular row the drive yields one
element, reads exactly `⌈1/25⌉ = 1` row header, and skips exactly one
space, the counts observed through the ghost counters. -/
theorem c5_tabular_packing_witness :
    regexMatch (peek_line c5_state) = true ∧
    seq_drive c5_seed 2 c5_acc0 c5_state [] = (.ok [0] c5_final, c5_accF) ∧
    ([0] : List Nat).length = 1 ∧
    c5_final.ghostHeaders = c5_state.ghostHeaders + (1 + 24) / 25 ∧
    c5_final.ghostSpaces = c5_state.ghostSpaces + 1 ∧
    c5_final.status = c5_state.status := by
  have hobs : preserves_obs c5_seed := by
    intro s
    exact ⟨rfl, rfl, rfl⟩
  have hdrive : seq_drive c5_seed 2 c5_acc0 c5_state [] =
      (.ok [0] c5_final, c5_accF) := by decide
  have hmain := c5_tabular_packing c5_seed hobs 1 c5_acc0 c5_state rfl rfl
    (by decide) (by decide) [0] c5_final c5_accF hdrive
  exact ⟨by decide, hdrive, hmain.1, hmain.2.1, hmain.2.2.1, hmain.2.2.2⟩

lemma dropPre_some : ∀ (p l r : List Char), dropPre p l = some r → l = p ++ r := by
  intro p
  induction p with
  | nil =>
    intro l r h
    unfold dropPre at h
    simpa using h
  | cons pc ps ih =>
    intro l r h
    cases l with
    | nil => unfold dropPre at h; cases h
    | cons c cs =>
      unfold dropPre at h
      by_cases hc : (pc == c) = true
      · rw [hc] at h
        simp only [eq_self_iff_true, if_true] at h
        have hcs := ih cs r h
        rw [List.cons_append, ← hcs]
        have hpc : pc = c := by simpa using hc
        rw [hpc]
      · have hc' : (pc == c) = false := by
          cases hx : (pc == c)
          · rfl
          · exact absurd hx hc
        rw [hc'] at h
        simp at h

lemma dropPre_self : ∀ (p r : List Char), dropPre p (p ++ r) = some r := by
  intro p
  induction p with
  | nil => intro r; rfl
  | cons pc ps ih =>
    intro r
    unfold dropPre
    simp only [List.cons_append, beq_self_eq_true, if_true]
    exact ih r

lemma takeWhile_append_all {p : Char → Bool} :
    ∀ (w : List Char) (c' : Char) (r : List Char), (∀ c ∈ w, p c = true) →
      p c' = false → List.takeWhile p (w ++ c' :: r) = w := by
  intro w
  induction w with
  | nil =>
    intro c' r _ hc
    simp [List.takeWhile_cons, hc]
  | cons x xs ih =>
    intro c' r hall hc
    have hx : p x = true := hall x (by simp)
    rw [List.cons_append, List.takeWhile_cons, hx]
    simp only [eq_self_iff_true, if_true]
    rw [ih c' r (fun c hcm => hall c (by simp [hcm])) hc]

lemma dropWhile_append_all {p : Char → Bool} :
    ∀ (w : List Char) (c' : Char) (r : List Char), (∀ c ∈ w, p c = true) →
      p c' = false → List.dropWhile p (w ++ c' :: r) = c' :: r := by
  intro w
  induction w with
  | nil =>
    intro c' r _ hc
    simp [List.dropWhile_cons, hc]
  | cons x xs ih =>
    intro c' r hall hc
    have hx : p x = true := hall x (by simp)
    rw [List.cons_append, List.dropWhile_cons, hx]
    simp only [eq_self_iff_true, if_true]
    exact ih c' r (fun c hcm => hall c (by simp [hcm])) hc

lemma match_here_iff (l : List Char) :
    match_here l = true ↔
      ∃ w d suf, l = ("data (").data ++ w ++ (") #").data ++ d ++ ':' :: suf ∧
        w ≠ [] ∧ (∀ c ∈ w, is_word_space c = true) ∧
        d ≠ [] ∧ (∀ c ∈ d, c.isDigit = true) := by
  constructor
  · intro h
    unfold match_here at h
    cases hd : dropPre (("data (").data) l with
    | none => rw [hd] at h; cases h
    | some r1 =>
      rw [hd] at h
      dsimp only at h
      by_cases he : (r1.takeWhile is_word_space).isEmpty = true
      · simp [he] at h
      · have he' : (r1.takeWhile is_word_space).isEmpty = false := by
          cases hx : (r1.takeWhile is_word_space).isEmpty
          · rfl
          · exact absurd hx he
        simp only [he', Bool.false_eq_true, if_false] at h
        cases hd2 : dropPre ((") #").data) (r1.dropWhile is_word_space) with
        | none => rw [hd2] at h; cases h
        | some r3 =>
          rw [hd2] at h
          dsimp only at h
          by_cases he2 : (r3.takeWhile Char.isDigit).isEmpty = true
          · simp [he2] at h
          · have he2' : (r3.takeWhile Char.isDigit).isEmpty = false := by
              cases hx : (r3.takeWhile Char.isDigit).isEmpty
              · rfl
              · exact absurd hx he2
            simp only [he2', Bool.false_eq_true, if_false] at h
            cases hr4 : r3.dropWhile Char.isDigit with
            | nil => rw [hr4] at h; cases h
            | cons c4 suf =>
              rw [hr4] at h
              dsimp only at h
              have hc4 : c4 = ':' := by simpa using h
              subst hc4
              refine ⟨r1.takeWhile is_word_space, r3.takeWhile Char.isDigit,
                suf, ?_, List.isEmpty_eq_false.mp he',
                fun c hc => List.mem_takeWhile_imp hc,
                List.isEmpty_eq_false.mp he2',
                fun c hc => List.mem_takeWhile_imp hc⟩
              have h1 := dropPre_some _ _ _ hd
              have h2 := (List.takeWhile_append_dropWhile is_word_space r1).symm
              have h3 := dropPre_some _ _ _ hd2
              have h4 := List.takeWhile_append_dropWhile Char.isDigit r3
              rw [h1]
              simp only [List.append_assoc]
              congr 1
              rw [← hr4, h4]
              have hlit : ((") #").data : List Char) = [')', ' ', '#'] := rfl
              rw [hlit] at h3
              rw [← h3]
              exact h2
  · rintro ⟨w, d, suf, rfl, hw, hwall, hd, hdall⟩
    unfold match_here
    have hsplit : ("data (").data ++ w ++ (") #").data ++ d ++ ':' :: suf =
        ("data (").data ++ (w ++ (')' :: (' ' :: '#' :: (d ++ ':' :: suf)))) := by
      simp [List.append_assoc]
    rw [hsplit, dropPre_self]
    dsimp only
    have hcp : is_word_space ')' = false := by decide
    rw [takeWhile_append_all w ')' _ hwall hcp,
      dropWhile_append_all w ')' _ hwall hcp]
    have hwne : w.isEmpty = false := List.isEmpty_eq_false.mpr hw
    rw [hwne]
    simp only [Bool.false_eq_true, if_false]
    have hsplit2 : (')' :: (' ' :: '#' :: (d ++ ':' :: suf))) =
        ((") #").data ++ (d ++ ':' :: suf)) := rfl
    rw [hsplit2, dropPre_self]
    dsimp only
    have hcd : Char.isDigit ':' = false := by decide
    rw [takeWhile_append_all d ':' suf hdall hcd,
      dropWhile_append_all d ':' suf hdall hcd]
    have hdne : d.isEmpty = false := List.isEmpty_eq_false.mpr hd
    rw [hdne]
    simp

lemma regexMatch_iff_suffix (l : List Char) :
    regexMatch l = true ↔ ∃ pre r, l = pre ++ r ∧ match_here r = true := by
  induction l with
  | nil =>
    rw [regexMatch]
    constructor
    · intro h
      exact ⟨[], [], rfl, h⟩
    · rintro ⟨pre, r, heq, hm⟩
      cases pre with
      | nil =>
        simp only [List.nil_append] at heq
        rw [← heq] at hm
        exact hm
      | cons p0 ps => cases heq
  | cons c t ih =>
    rw [regexMatch]
    constructor
    · intro h
      have h' : match_here (c :: t) = true ∨ regexMatch t = true := by
        simpa using h
      rcases h' with h1 | h1
      · exact ⟨[], c :: t, rfl, h1⟩
      · obtain ⟨pre, r, heq, hm⟩ := ih.mp h1
        exact ⟨c :: pre, r, by rw [heq]; rfl, hm⟩
    · rintro ⟨pre, r, heq, hm⟩
      cases pre with
      | nil =>
        simp only [List.nil_append] at heq
        rw [← heq] at hm
        rw [hm]
        simp
      | cons p0 ps =>
        injection heq with heq1 heq2
        subst heq1
        have hrec := ih.mpr ⟨ps, r, heq2, hm⟩
        rw [hrec]
        simp

lemma peek_type_of_tag {s : DeState} (h : has_type_tag (peek_line s) = true) :
    ∃ tn, peek_type s = .ok tn s := by
  unfold has_type_tag at h
  unfold peek_type
  dsimp only
  cases h1 : rfind_lparen (peek_line s) with
  | none => rw [h1] at h; cases h
  | some bgn =>
    rw [h1] at h
    dsimp only at h
    cases h2 : ((peek_line s).drop (bgn + 1)).findIdx? (fun c => c == ')') with
    | none => rw [h2] at h; simp at h
    | some e =>
      dsimp only
      refine ⟨((peek_line s).drop (bgn + 1)).take e, ?_⟩
      rw [h2]

/-- C10: at the first element of a sequence with nonzero count, the
sequence is classified dense tabular (`multiple` set, `MultipleElement`
context) precisely when the upcoming line contains anywhere a substring
matching `data (` + one-or-more alphanumeric-or-space characters + `) #` +
one-or-more digits + `:`; otherwise it is classified per-element.  The
first conjunct proves the embedded unanchored matcher equivalent to that
pattern; the second applies it to the discrimination in
`next_element_seed` (the tabular direction also needs the line to carry a
readable type tag, since the code caches `peek_type` before classifying). -/
theorem c10_tabular_trigger :
    (∀ l, regexMatch l = true ↔ SpecSeqMultiLine l) ∧
    (∀ (α : Type) (seedDe : DeState → DeStep α) (a : SeqSt) (s : DeState),
      a.current = 0 → a.count ≠ 0 →
      (regexMatch (peek_line s) = false →
        (next_element_seed seedDe a s).snd.multiple = false) ∧
      (regexMatch (peek_line s) = true → has_type_tag (peek_line s) = true →
        (next_element_seed seedDe a s).snd.multiple = true)) := by
  constructor
  · intro l
    rw [regexMatch_iff_suffix]
    unfold SpecSeqMultiLine
    constructor
    · rintro ⟨pre, r, rfl, hm⟩
      obtain ⟨w, d, suf, hr, hw, hwa, hd, hda⟩ := (match_here_iff r).mp hm
      refine ⟨pre, w, d, suf, ?_, hw, hwa, hd, hda⟩
      rw [hr]
      simp [List.append_assoc]
    · rintro ⟨p, w, d, suf, heq, hw, hwa, hd, hda⟩
      refine ⟨p, ("data (").data ++ w ++ (") #").data ++ d ++ ':' :: suf, ?_, ?_⟩
      · rw [heq]
        simp [List.append_assoc]
      · exact (match_here_iff _).mpr ⟨w, d, suf, rfl, hw, hwa, hd, hda⟩
  · intro α seedDe a s hcur hcnt
    obtain ⟨atab, acur, acnt, amul, afk⟩ := a
    simp only at hcur hcnt
    subst hcur
    have hCb : (acnt != 0) = true := by simpa using hcnt
    have h0C : (0 == acnt) = false := by
      simp only [beq_eq_false_iff_ne]
      omega
    constructor
    · intro hreg
      unfold next_element_seed
      simp only [beq_self_eq_true, Bool.true_and, hCb, if_true, is_seq_multi,
        hreg, Bool.false_eq_true, if_false]
      dsimp only
      rw [h0C]
      simp only [Bool.false_eq_true, if_false]
      split
      · rfl
      · rfl
      · split
        · rfl
        · rfl
        · rfl
    · intro hreg htag
      have hpl : peek_line { s with ghostDiscrim := s.ghostDiscrim + 1 } =
          peek_line s := by
        unfold peek_line peek_str chars
        dsimp only
        cases hm : List.findIdx? (fun c => c == '\r' || c == '\n')
            (s.data.drop s.offset) with
        | none =>
          dsimp only
          by_cases hle : s.offset + (s.data.length - s.offset) ≤ s.data.length
          · rw [if_pos hle, if_pos hle]
          · rw [if_neg hle, if_neg hle]
        | some p =>
          dsimp only
          by_cases hle : s.offset + p ≤ s.data.length
          · rw [if_pos hle, if_pos hle]
          · rw [if_neg hle, if_neg hle]
      have htag' : has_type_tag
          (peek_line { s with ghostDiscrim := s.ghostDiscrim + 1 }) = true := by
        rw [hpl]
        exact htag
      obtain ⟨tn, hpt⟩ := peek_type_of_tag htag'
      unfold next_element_seed
      simp only [beq_self_eq_true, Bool.true_and, hCb, if_true, is_seq_multi, hreg]
      rw [hpt]
      dsimp only
      rw [h0C]
      simp only [Bool.false_eq_true, if_false]
      split
      · rfl
      · rfl
      · split
        · rfl
        · rfl
        · rfl

def c10_seed : DeState → DeStep Nat := fun s => .ok 0 s

def c10_acc : SeqSt :=
  { tab := 1, current := 0, count := 2, multiple := false, faked := false }

def c10_no : DeState := mk_state ("data 1 (int)\n") [.StructValue, .Invalid]

def c10_yes : DeState := mk_state ("data (int) #0: 7\n") [.StructValue, .Invalid]

/-- C10 witness: a line matching the pattern away from its start satisfies
the spec decomposition; a non-matching first line classifies per-element
and a matching one classifies dense tabular. -/
theorem c10_tabular_trigger_witness :
    regexMatch (("x data (int) #3: 1").data) = true ∧
    SpecSeqMultiLine (("x data (int) #3: 1").data) ∧
    (next_element_seed c10_seed c10_acc c10_no).snd.multiple = false ∧
    (next_element_seed c10_seed c10_acc c10_yes).snd.multiple = true :=
  ⟨by decide,
   (c10_tabular_trigger.1 (("x data (int) #3: 1").data)).mp (by decide),
   (c10_tabular_trigger.2 Nat c10_seed c10_acc c10_no rfl
     (by decide)).1 (by decide),
   (c10_tabular_trigger.2 Nat c10_seed c10_acc c10_yes rfl
     (by decide)).2 (by decide) (by decide)⟩
